import Mathlib

/-!
# Powers-of-tau contribution: `contribution/parse_point.go` and `contribution/contribution.go`

A shallow embedding of the point parsing functions and of `Transcript.UpdatePowerOfTau`.

* A Go `string` is a sequence of bytes (`GoString`), a byte a natural number below 256.
* `encoding/hex` (`EncodeToString`, `DecodeString`) is embedded from the Go standard library.
* The curve library (gnark-crypto) is not part of the repository; the three operations the
  code calls on a point (stream decoding without subgroup check, `Bytes`,
  `ScalarMultiplication`) are the fields of `CurveGroup`, a parameter of every definition.
* A Go `panic` and a returned `error` are kept apart (`Failure`); `UpdatePowerOfTau` mutates
  the transcript through a pointer, so its `Outcome` carries the transcript as it stands in
  memory when the call returns or panics.
-/

namespace Contribution

set_option maxRecDepth 100000

/-! ## Go strings and `encoding/hex` -/

/-- A Go string: its bytes. -/
abbrev GoString := List Nat

/-- The bytes of an ASCII string literal. -/
def lit (s : String) : GoString := s.toList.map Char.toNat

/-- An `error` value returned by `hex.DecodeString` or by the curve decoder. -/
inductive GoError where
  | InvalidByteError (b : Nat)
  | ErrLength
  | decoder
  deriving DecidableEq

/-- A Go run-time panic: a slice expression out of bounds, the explicit panic of
`trim0xPrefix`, an index out of range, or `panic(err)` inside a parsing goroutine. -/
inductive Panic where
  | sliceBounds
  | notPrefixed
  | indexOutOfRange
  | ofError (e : GoError)
  deriving DecidableEq

/-- How a single-point parser can fail: by returning an error or by panicking. -/
inductive Failure where
  | returned (e : GoError)
  | panicked (p : Panic)
  deriving DecidableEq

/-- The constant `hextable = "0123456789abcdef"` of `encoding/hex`. -/
def hextable : List Nat := lit "0123456789abcdef"

/-- `hex.EncodeToString`: two characters `hextable[v>>4]`, `hextable[v&0x0f]` per byte. -/
def EncodeToString : List Nat → GoString
  | [] => []
  | v :: src => hextable.getD (v >>> 4) 0 :: hextable.getD (v &&& 0x0f) 0 :: EncodeToString src

/-- The value of a hexadecimal character (`reverseHexTable` of `encoding/hex`), `none` for a
byte that is not one of `0-9`, `a-f`, `A-F`. -/
def fromHexChar (c : Nat) : Option Nat :=
  if 48 ≤ c ∧ c ≤ 57 then some (c - 48)
  else if 97 ≤ c ∧ c ≤ 102 then some (c - 97 + 10)
  else if 65 ≤ c ∧ c ≤ 70 then some (c - 65 + 10)
  else none

/-- `hex.DecodeString`: pairs of characters from the left, the first invalid character is
reported; a trailing single character is reported as invalid if it is, as `ErrLength`
otherwise. The bytes decoded before an error are dropped by both callers. -/
def DecodeString : GoString → Except GoError (List Nat)
  | [] => .ok []
  | [p] =>
    match fromHexChar p with
    | none => .error (.InvalidByteError p)
    | some _ => .error .ErrLength
  | p :: q :: src =>
    match fromHexChar p with
    | none => .error (.InvalidByteError p)
    | some a =>
      match fromHexChar q with
      | none => .error (.InvalidByteError q)
      | some b =>
        match DecodeString src with
        | .error e => .error e
        | .ok dst => .ok (((a <<< 4) ||| b) :: dst)

/-! ## The curve library -/

/-- One point group of the curve library, as far as the code uses it. `Point` stands for
`bls12381.G1Affine` or `bls12381.G2Affine`; `Decode` is
`NewDecoder(bytes.NewReader(byts), NoSubgroupChecks()).Decode` as a function of the bytes read
(`none` when it returns an error); `Bytes` is the method `Bytes()`, whose result type is the
array `[size]byte`; `ScalarMultiplication P s` is the value stored by
`P.ScalarMultiplication(&P, s)`. -/
structure CurveGroup (size : Nat) where
  Point : Type
  Decode : List Nat → Option Point
  Bytes : Point → List Nat
  ScalarMultiplication : Point → Int → Point
  Bytes_length : ∀ P, (Bytes P).length = size
  Bytes_lt : ∀ P b, b ∈ Bytes P → b < 256

/-- The two groups of the library: compressed points of 48 and 96 bytes. -/
structure Library where
  G1 : CurveGroup 48
  G2 : CurveGroup 96

/-- Modelled from the spec: the constant returned by `bls12381Fr.Modulus()` of the curve
library, the order `r` of the BLS12-381 scalar field. -/
def Modulus : Int :=
  52435875175126190479447740508185965837690552500527637822603658699938581184513

/-! ## `parse_point.go` -/

/-- `trim0xPrefix` (parse_point.go:104-110) removes the `0x` from a hex string. The slice
`hexString[0:2]` panics on a string shorter than two bytes; a different two-byte start is
the explicit panic. -/
def trim0xPrefix (hexString : GoString) : Except Panic GoString :=
  if hexString.length < 2 then .error .sliceBounds
  else if hexString.take 2 ≠ lit "0x" then .error .notPrefixed
  else .ok (hexString.drop 2)

/-- `parseG1PointNoSubgroupCheck` (parse_point.go:73-84) parses a hex string (with the
`0x`) into a G1 point. The
pair `(point, err)` it returns is kept as one value: the point the decoder stored when `err`
is nil, the failure otherwise. -/
def parseG1PointNoSubgroupCheck (L : Library) (hexString : GoString) :
    Except Failure L.G1.Point :=
  match trim0xPrefix hexString with
  | .error p => .error (.panicked p)
  | .ok trimmed =>
    match DecodeString trimmed with
    | .error err => .error (.returned err)
    | .ok byts =>
      match L.G1.Decode byts with
      | none => .error (.returned .decoder)
      | some point => .ok point

/-- `parseG2PointNoSubgroupCheck` (parse_point.go:90-101) parses a hex string (with the
`0x`) into a G2 point. -/
def parseG2PointNoSubgroupCheck (L : Library) (hexString : GoString) :
    Except Failure L.G2.Point :=
  match trim0xPrefix hexString with
  | .error p => .error (.panicked p)
  | .ok trimmed =>
    match DecodeString trimmed with
    | .error err => .error (.returned err)
    | .ok byts =>
      match L.G2.Decode byts with
      | none => .error (.returned .decoder)
      | some point => .ok point

/-- What the goroutine of the batch parsers does with a failure of the single-point parser:
a returned error is turned into `panic(err)`, a panic stays a panic. -/
def Failure.toPanic : Failure → Panic
  | .returned e => .ofError e
  | .panicked p => p

/-- `ParseG1PointsNoSubgroupCheck` (parse_point.go:19-38): goroutine `j` stores the point
parsed from `hexStrings[j]` in slot `j` of the result and panics on a failure; the result is returned
after all goroutines are done. A panic in any goroutine ends the program; when several
elements fail, the panic kept here is the one of the lowest index. -/
def ParseG1PointsNoSubgroupCheck (L : Library) :
    List GoString → Except Panic (List L.G1.Point)
  | [] => .ok []
  | h :: hexStrings =>
    match parseG1PointNoSubgroupCheck L h with
    | .error f => .error f.toPanic
    | .ok g1Point =>
      match ParseG1PointsNoSubgroupCheck L hexStrings with
      | .error p => .error p
      | .ok g1Points => .ok (g1Point :: g1Points)

/-- `ParseG2PointsNoSubgroupCheck` (parse_point.go:48-67): as
`ParseG1PointsNoSubgroupCheck`, for G2. -/
def ParseG2PointsNoSubgroupCheck (L : Library) :
    List GoString → Except Panic (List L.G2.Point)
  | [] => .ok []
  | h :: hexStrings =>
    match parseG2PointNoSubgroupCheck L h with
    | .error f => .error f.toPanic
    | .ok g2Point =>
      match ParseG2PointsNoSubgroupCheck L hexStrings with
      | .error p => .error p
      | .ok g2Points => .ok (g2Point :: g2Points)

/-! ## `contribution.go` -/

/-- The struct `PowersOfTau`: the two sequences of compressed points in hex. -/
structure PowersOfTau where
  G1Powers : List GoString
  G2Powers : List GoString
  deriving DecidableEq

/-- The struct `Transcript`; the two counts are Go `int`s and may be negative. -/
structure Transcript where
  NumG1Powers : Int
  NumG2Powers : Int
  Powers : PowersOfTau
  deriving DecidableEq

/-- How a call of `UpdatePowerOfTau` ends, with the transcript behind the receiver pointer
as it is at that moment. -/
inductive Outcome where
  | returned (t : Transcript)
  | panicked (p : Panic) (t : Transcript)
  deriving DecidableEq

/-- The variables of the loop of `UpdatePowerOfTau`. -/
structure LoopState (L : Library) where
  i : Nat
  xPower : Int
  G1Points : List L.G1.Point
  G2Points : List L.G2.Point
  t : Transcript

/-- The string stored in a G1 slot: `"0x" + hex.EncodeToString(compressedG1[:])`. -/
def encodeG1 (L : Library) (P : L.G1.Point) : GoString :=
  lit "0x" ++ EncodeToString (L.G1.Bytes P)

/-- The string stored in a G2 slot: `"0x" + hex.EncodeToString(compressedG2[:])`. -/
def encodeG2 (L : Library) (Q : L.G2.Point) : GoString :=
  lit "0x" ++ EncodeToString (L.G2.Bytes Q)

/-- One pass through the body of the loop `for i := 0; i < t.NumG1Powers; i++`
(contribution.go:79-92), the increment included. Indexing a slice out of range panics, with
the transcript as written so far. -/
def loopBody (L : Library) (x : Int) (s : LoopState L) :
    Except (Panic × Transcript) (LoopState L) :=
  match s.G1Points[s.i]? with
  | none => .error (.indexOutOfRange, s.t)
  | some P =>
    let P1 := L.G1.ScalarMultiplication P s.xPower
    let G1Points := s.G1Points.set s.i P1
    if s.t.Powers.G1Powers.length ≤ s.i then .error (.indexOutOfRange, s.t)
    else
      let t1 : Transcript :=
        { s.t with Powers := { s.t.Powers with
            G1Powers := s.t.Powers.G1Powers.set s.i (encodeG1 L P1) } }
      if (s.i : Int) < t1.NumG2Powers then
        match s.G2Points[s.i]? with
        | none => .error (.indexOutOfRange, t1)
        | some Q =>
          let Q1 := L.G2.ScalarMultiplication Q s.xPower
          let G2Points := s.G2Points.set s.i Q1
          if t1.Powers.G2Powers.length ≤ s.i then .error (.indexOutOfRange, t1)
          else
            let t2 : Transcript :=
              { t1 with Powers := { t1.Powers with
                  G2Powers := t1.Powers.G2Powers.set s.i (encodeG2 L Q1) } }
            .ok { i := s.i + 1, xPower := (s.xPower * x) % Modulus,
                  G1Points := G1Points, G2Points := G2Points, t := t2 }
      else
        .ok { i := s.i + 1, xPower := (s.xPower * x) % Modulus,
              G1Points := G1Points, G2Points := s.G2Points, t := t1 }

/-- The first `n` passes through the loop body. -/
def runLoop (L : Library) (x : Int) :
    Nat → LoopState L → Except (Panic × Transcript) (LoopState L)
  | 0, s => .ok s
  | n + 1, s =>
    match loopBody L x s with
    | .error e => .error e
    | .ok s1 => runLoop L x n s1

/-- `Transcript.UpdatePowerOfTau` (contribution.go:69-93): both sequences are parsed, then
the loop runs while `i < t.NumG1Powers`, that is `t.NumG1Powers` times (no pass for a count below 1; the count
is not assigned in the loop). -/
def UpdatePowerOfTau (L : Library) (t : Transcript) (x : Int) : Outcome :=
  match ParseG1PointsNoSubgroupCheck L t.Powers.G1Powers with
  | .error p => .panicked p t
  | .ok G1Points =>
    match ParseG2PointsNoSubgroupCheck L t.Powers.G2Powers with
    | .error p => .panicked p t
    | .ok G2Points =>
      match runLoop L x t.NumG1Powers.toNat
          { i := 0, xPower := 1, G1Points := G1Points, G2Points := G2Points, t := t } with
      | .error (p, t1) => .panicked p t1
      | .ok s => .returned s.t

/-! ## A small instance of the library

The group of integers modulo 13 under addition, used to run the code on concrete inputs. A
point `p` is written as the byte `p` followed by zero bytes; the decoder reads `size` bytes
from the stream and leaves what follows unread. -/

/-- The bytes of a point of the small group. -/
def Z13.Bytes (n : Nat) (p : Fin 13) : List Nat := p.val :: List.replicate n 0

/-- The decoder of the small group. -/
def Z13.Decode (n : Nat) (byts : List Nat) : Option (Fin 13) :=
  match byts with
  | [] => none
  | b :: rest =>
    if b < 13 ∧ rest.take n = List.replicate n 0 then some (Fin.ofNat b) else none

/-- Scalar multiplication in the small group: `s * p` modulo 13. -/
def Z13.ScalarMultiplication (p : Fin 13) (s : Int) : Fin 13 :=
  Fin.ofNat ((s * (p.val : Int)) % 13).toNat

/-- The small group with points of `n + 1` bytes. -/
def Z13.group (n : Nat) : CurveGroup (n + 1) where
  Point := Fin 13
  Decode := Z13.Decode n
  Bytes := Z13.Bytes n
  ScalarMultiplication := Z13.ScalarMultiplication
  Bytes_length := by intro P; simp [Z13.Bytes]
  Bytes_lt := by
    intro P b hb
    simp only [Z13.Bytes, List.mem_cons, List.mem_replicate] at hb
    rcases hb with h | h
    · have := P.isLt; omega
    · omega

/-- The library made of two copies of the small group. -/
def Z13.lib : Library where
  G1 := Z13.group 47
  G2 := Z13.group 95

/-- The G1 hex string of the point `p` of the small group. -/
def Z13.hexG1 (p : Fin 13) : GoString := encodeG1 Z13.lib p

/-- The G2 hex string of the point `q` of the small group. -/
def Z13.hexG2 (q : Fin 13) : GoString := encodeG2 Z13.lib q

/-! ## A second small instance: the group of order `r`

The integers modulo `r` under addition, a group in which every point has order dividing
`r`. A point is written as its `size` base-256 digits, lowest first. -/

/-- The order of the group: `r` as a natural number. -/
def Zr.order : Nat := Modulus.toNat

/-- The bytes of a point of the group of order `r`. -/
def Zr.Bytes (n : Nat) (p : Fin Zr.order) : List Nat :=
  (List.range n).map (fun i => p.val / 256 ^ i % 256)

/-- The number written by the first `n` bytes of the stream, `none` when the stream ends
before. -/
def Zr.ofBytes : Nat → List Nat → Option Nat
  | 0, _ => some 0
  | _ + 1, [] => none
  | n + 1, b :: rest =>
    match Zr.ofBytes n rest with
    | none => none
    | some v => some (b + 256 * v)

/-- The decoder of the group of order `r`: the number read must be below `r`. -/
def Zr.Decode (n : Nat) (byts : List Nat) : Option (Fin Zr.order) :=
  match Zr.ofBytes n byts with
  | none => none
  | some v => if h : v < Zr.order then some ⟨v, h⟩ else none

/-- Scalar multiplication in the group of order `r`: `s * p` modulo `r`. -/
def Zr.ScalarMultiplication (p : Fin Zr.order) (s : Int) : Fin Zr.order :=
  ⟨((s * (p.val : Int)) % Modulus).toNat, by
    have h1 : (s * (p.val : Int)) % Modulus < Modulus := Int.emod_lt_of_pos _ (by decide)
    have h0 : 0 ≤ (s * (p.val : Int)) % Modulus := Int.emod_nonneg _ (by decide)
    unfold Zr.order
    omega⟩

/-- The group of order `r` with points of `n` bytes. -/
def Zr.group (n : Nat) : CurveGroup n where
  Point := Fin Zr.order
  Decode := Zr.Decode n
  Bytes := Zr.Bytes n
  ScalarMultiplication := Zr.ScalarMultiplication
  Bytes_length := by intro P; simp [Zr.Bytes]
  Bytes_lt := by
    intro P b hb
    simp only [Zr.Bytes, List.mem_map] at hb
    obtain ⟨i, _, rfl⟩ := hb
    exact Nat.mod_lt _ (by decide)

/-- The library made of two copies of the group of order `r`. -/
def Zr.lib : Library where
  G1 := Zr.group 48
  G2 := Zr.group 96

/-- The point `v mod r` of the group of order `r`. -/
def Zr.point (v : Nat) : Fin Zr.order := ⟨v % Zr.order, Nat.mod_lt _ (by decide)⟩

/-- Three G1 points and two G2 points of the group of order `r`, all counted. -/
def Zr.scenario : Transcript :=
  { NumG1Powers := 3, NumG2Powers := 2,
    Powers := { G1Powers := [encodeG1 Zr.lib (Zr.point 1), encodeG1 Zr.lib (Zr.point 2),
                             encodeG1 Zr.lib (Zr.point 3)],
                G2Powers := [encodeG2 Zr.lib (Zr.point 1), encodeG2 Zr.lib (Zr.point 2)] } }

/-! ## A third small instance: points off the curve

The integers modulo 26 under addition, the even ones standing for the points on the curve.
`Bytes` writes the compressed form, the byte `128 + g` followed by zero bytes; the decoder
accepts it for an even `g` only, as a decoder that recomputes the second coordinate from
the curve equation does. The uncompressed form, the byte `g` followed by zero bytes up to
twice the size, is accepted for every `g`: without the subgroup check nothing tests that the
point is on the curve. -/

/-- The bytes of a point of the group modulo 26: its compressed form. -/
def Z26.Bytes (n : Nat) (g : Fin 26) : List Nat := (128 + g.val) :: List.replicate n 0

/-- The decoder of the group modulo 26, for the compressed and the uncompressed form. -/
def Z26.Decode (n : Nat) (byts : List Nat) : Option (Fin 26) :=
  match byts with
  | [] => none
  | b :: rest =>
    if 128 ≤ b then
      if b - 128 < 26 ∧ (b - 128) % 2 = 0 ∧ rest.take n = List.replicate n 0 then
        some (Fin.ofNat (b - 128))
      else none
    else
      if b < 26 ∧ rest.take (2 * n + 1) = List.replicate (2 * n + 1) 0 then
        some (Fin.ofNat b)
      else none

/-- Scalar multiplication in the group modulo 26: `s * g` modulo 26. -/
def Z26.ScalarMultiplication (g : Fin 26) (s : Int) : Fin 26 :=
  Fin.ofNat ((s * (g.val : Int)) % 26).toNat

/-- The group modulo 26 with points of `n + 1` bytes. -/
def Z26.group (n : Nat) : CurveGroup (n + 1) where
  Point := Fin 26
  Decode := Z26.Decode n
  Bytes := Z26.Bytes n
  ScalarMultiplication := Z26.ScalarMultiplication
  Bytes_length := by intro P; simp [Z26.Bytes]
  Bytes_lt := by
    intro P b hb
    simp only [Z26.Bytes, List.mem_cons, List.mem_replicate] at hb
    rcases hb with h | h
    · have := P.isLt; omega
    · omega

/-- The library made of two copies of the group modulo 26. -/
def Z26.lib : Library where
  G1 := Z26.group 47
  G2 := Z26.group 95

/-- The uncompressed G1 hex string (96 bytes) of the point `g` of the group modulo 26. -/
def Z26.rawG1 (g : Fin 26) : GoString :=
  lit "0x" ++ EncodeToString (g.val :: List.replicate 95 0)

/-- Two uncompressed G1 strings of the odd point 1, both counted, and no G2 string. -/
def Z26.offCurve : Transcript :=
  { NumG1Powers := 2, NumG2Powers := 0,
    Powers := { G1Powers := [Z26.rawG1 1, Z26.rawG1 1], G2Powers := [] } }

/-! ## Predicates used in the statements -/

/-- A byte is `0-9` or `a-f`, the characters `hex.EncodeToString` writes. -/
def isLowerHex (c : Nat) : Bool := (48 ≤ c && c ≤ 57) || (97 ≤ c && c ≤ 102)

/-- A byte is one of the characters `hex.DecodeString` accepts. -/
def isHex (c : Nat) : Bool := isLowerHex c || (65 ≤ c && c ≤ 70)

/-- The string is accepted by `parseG1PointNoSubgroupCheck`. -/
def decodesG1 (L : Library) (h : GoString) : Bool := (parseG1PointNoSubgroupCheck L h).toBool

/-- The string is accepted by `parseG2PointNoSubgroupCheck`. -/
def decodesG2 (L : Library) (h : GoString) : Bool := (parseG2PointNoSubgroupCheck L h).toBool

/-- A valid transcript: the counts are within the sequence lengths and every string of both
sequences decodes. -/
def Valid (L : Library) (t : Transcript) : Prop :=
  t.NumG1Powers ≤ t.Powers.G1Powers.length ∧
  t.NumG2Powers ≤ t.Powers.G2Powers.length ∧
  (∀ h ∈ t.Powers.G1Powers, decodesG1 L h = true) ∧
  (∀ h ∈ t.Powers.G2Powers, decodesG2 L h = true)

instance (L : Library) (t : Transcript) : Decidable (Valid L t) := by
  unfold Valid; infer_instance

/-- The end-to-end scenario of the specification on the small group: four G1 points and two
G2 points, `NumG1Powers = 4`, `NumG2Powers = 2`. -/
def Z13.scenario : Transcript :=
  { NumG1Powers := 4, NumG2Powers := 2,
    Powers := { G1Powers := [Z13.hexG1 1, Z13.hexG1 2, Z13.hexG1 3, Z13.hexG1 4],
                G2Powers := [Z13.hexG2 1, Z13.hexG2 2] } }

/-- Two G1 points and one G2 point of the small group, all counted. -/
def Z13.pair : Transcript :=
  { NumG1Powers := 2, NumG2Powers := 1,
    Powers := { G1Powers := [Z13.hexG1 1, Z13.hexG1 1], G2Powers := [Z13.hexG2 1] } }

/-- One G1 point and two G2 points of the small group, all counted:
`NumG2Powers > NumG1Powers`. -/
def Z13.longer : Transcript :=
  { NumG1Powers := 1, NumG2Powers := 2,
    Powers := { G1Powers := [Z13.hexG1 1], G2Powers := [Z13.hexG2 1, Z13.hexG2 1] } }

/-- Two G1 points of the small group under a count of three. -/
def Z13.overcount : Transcript :=
  { NumG1Powers := 3, NumG2Powers := 0,
    Powers := { G1Powers := [Z13.hexG1 1, Z13.hexG1 1], G2Powers := [] } }

/-- A transcript whose second G1 string, beyond the count, is not hex. -/
def Z13.corrupt : Transcript :=
  { NumG1Powers := 1, NumG2Powers := 1,
    Powers := { G1Powers := [Z13.hexG1 1, lit "0xzz"], G2Powers := [Z13.hexG2 1] } }

/-- Two G1 points and one G2 point counted, with one more string in each sequence. -/
def Z13.slack : Transcript :=
  { NumG1Powers := 2, NumG2Powers := 1,
    Powers := { G1Powers := [Z13.hexG1 2, Z13.hexG1 3, Z13.hexG1 4],
                G2Powers := [Z13.hexG2 4, Z13.hexG2 5] } }

/-- The loop variables at the start of the call on three G1 points of the small group. -/
def Z13.start : LoopState Z13.lib :=
  { i := 0, xPower := 1, G1Points := ([1, 1, 1] : List (Fin 13)), G2Points := [],
    t := { NumG1Powers := 3, NumG2Powers := 0,
           Powers := { G1Powers := [Z13.hexG1 1, Z13.hexG1 1, Z13.hexG1 1], G2Powers := [] } } }

/-- The G1 string of the point 10 of the small group written with an upper-case digit:
`0x0A` followed by 94 characters `0`. -/
def Z13.upperA : GoString := lit "0x0A" ++ List.replicate 94 48

/-- Three G1 points and one G2 point counted, with one more G2 string: the counts differ
and the G2 sequence is longer than its count. -/
def Z13.uneven : Transcript :=
  { NumG1Powers := 3, NumG2Powers := 1,
    Powers := { G1Powers := [Z13.hexG1 1, Z13.hexG1 2, Z13.hexG1 3],
                G2Powers := [Z13.hexG2 4, Z13.hexG2 5] } }

/-- Two G1 points under a count of three, with three G2 strings under a count of two. -/
def Z13.overG1 : Transcript :=
  { NumG1Powers := 3, NumG2Powers := 2,
    Powers := { G1Powers := [Z13.hexG1 1, Z13.hexG1 2],
                G2Powers := [Z13.hexG2 1, Z13.hexG2 2, Z13.hexG2 3] } }

/-- One G1 string under a count of two, and no G2 string under a count of zero. -/
def Z13.single : Transcript :=
  { NumG1Powers := 2, NumG2Powers := 0,
    Powers := { G1Powers := [Z13.hexG1 5], G2Powers := [] } }

/-- Two G1 points under a count of three, and no G2 string under a count of one. -/
def Z13.overboth : Transcript :=
  { NumG1Powers := 3, NumG2Powers := 1,
    Powers := { G1Powers := [Z13.hexG1 1, Z13.hexG1 2], G2Powers := [] } }

/-- The loop variables at the start of the call on `Z13.overboth`. -/
def Z13.overbothStart : LoopState Z13.lib :=
  { i := 0, xPower := 1, G1Points := ([1, 2] : List (Fin 13)), G2Points := [],
    t := Z13.overboth }

/-! ## Facts about `encoding/hex` -/

theorem fromHexChar_eq_none_iff (c : Nat) : fromHexChar c = none ↔ isHex c = false := by
  unfold fromHexChar isHex isLowerHex
  split_ifs <;> simp <;> omega

theorem encode_byte_decodes : ∀ v, v < 256 →
    fromHexChar (hextable.getD (v >>> 4) 0) = some (v >>> 4) ∧
    fromHexChar (hextable.getD (v &&& 0x0f) 0) = some (v &&& 0x0f) ∧
    (((v >>> 4) <<< 4) ||| (v &&& 0x0f)) = v := by
  decide

theorem DecodeString_EncodeToString (src : List Nat) (h : ∀ b ∈ src, b < 256) :
    DecodeString (EncodeToString src) = .ok src := by
  induction src with
  | nil => rfl
  | cons v src ih =>
    obtain ⟨h1, h2, h3⟩ := encode_byte_decodes v (h v (List.mem_cons_self _ _))
    have ih1 := ih (fun b hb => h b (List.mem_cons_of_mem _ hb))
    simp only [EncodeToString, DecodeString, h1, h2, ih1, h3]


theorem trim0xPrefix_append (t : GoString) : trim0xPrefix (lit "0x" ++ t) = .ok t := by
  simp [trim0xPrefix, lit]

theorem trim0xPrefix_ok_iff (s t : GoString) :
    trim0xPrefix s = .ok t ↔ s = lit "0x" ++ t := by
  constructor
  · intro h
    unfold trim0xPrefix at h
    split_ifs at h with h1 h2
    simp only [Except.ok.injEq] at h
    simp only [ne_eq, Decidable.not_not] at h2
    rw [← h, ← h2, List.take_append_drop]
  · rintro rfl
    exact trim0xPrefix_append t

theorem DecodeString_odd (t : GoString) (h : t.length % 2 = 1) :
    ∃ e, DecodeString t = .error e := by
  induction t using DecodeString.induct with
  | case1 => simp at h
  | case2 p hp => simp [DecodeString, hp]
  | case3 p a hp => simp [DecodeString, hp]
  | case4 p q src hp => simp [DecodeString, hp]
  | case5 p q src a hp hq => simp [DecodeString, hp, hq]
  | case6 p q src a hp b hq e he ih => simp [DecodeString, hp, hq, he]
  | case7 p q src a hp b hq dst he ih =>
    have : src.length % 2 = 1 := by simp only [List.length_cons] at h; omega
    obtain ⟨e, he1⟩ := ih this
    rw [he1] at he
    cases he

theorem DecodeString_invalid (t : GoString) (h : ∃ c ∈ t, isHex c = false) :
    ∃ e, DecodeString t = .error e := by
  induction t using DecodeString.induct with
  | case1 => simp at h
  | case2 p hp => simp [DecodeString, hp]
  | case3 p a hp => simp [DecodeString, hp]
  | case4 p q src hp => simp [DecodeString, hp]
  | case5 p q src a hp hq => simp [DecodeString, hp, hq]
  | case6 p q src a hp b hq e he ih => simp [DecodeString, hp, hq, he]
  | case7 p q src a hp b hq dst he ih =>
    obtain ⟨c, hc, hcx⟩ := h
    have hpx : isHex p = true := by
      cases hx : isHex p
      · rw [(fromHexChar_eq_none_iff p).2 hx] at hp; cases hp
      · rfl
    have hqx : isHex q = true := by
      cases hx : isHex q
      · rw [(fromHexChar_eq_none_iff q).2 hx] at hq; cases hq
      · rfl
    simp only [List.mem_cons] at hc
    rcases hc with rfl | rfl | hc
    · rw [hpx] at hcx; cases hcx
    · rw [hqx] at hcx; cases hcx
    · obtain ⟨e, he1⟩ := ih ⟨c, hc, hcx⟩
      rw [he1] at he
      cases he

theorem nibbles_join : ∀ a, a < 16 → ∀ b, b < 16 →
    ((a <<< 4) ||| b) >>> 4 = a ∧ ((a <<< 4) ||| b) &&& 0x0f = b := by
  decide

theorem fromHexChar_lower_aux : ∀ c, c < 103 → isLowerHex c = true →
    ∃ a, fromHexChar c = some a ∧ a < 16 ∧ hextable.getD a 0 = c := by
  decide

theorem fromHexChar_lower (c a : Nat) (hc : isLowerHex c = true) (ha : fromHexChar c = some a) :
    a < 16 ∧ hextable.getD a 0 = c := by
  have hlt : c < 103 := by
    simp only [isLowerHex, Bool.or_eq_true, Bool.and_eq_true, decide_eq_true_eq] at hc
    omega
  obtain ⟨a1, h1, h2, h3⟩ := fromHexChar_lower_aux c hlt hc
  rw [h1] at ha
  cases ha
  exact ⟨h2, h3⟩

theorem EncodeToString_DecodeString (t : GoString) (dst : List Nat)
    (hlow : ∀ c ∈ t, isLowerHex c = true) (h : DecodeString t = .ok dst) :
    EncodeToString dst = t := by
  induction t using DecodeString.induct generalizing dst with
  | case1 => simp only [DecodeString, Except.ok.injEq] at h; subst h; rfl
  | case2 p hp => simp [DecodeString, hp] at h
  | case3 p a hp => simp [DecodeString, hp] at h
  | case4 p q src hp => simp [DecodeString, hp] at h
  | case5 p q src a hp hq => simp [DecodeString, hp, hq] at h
  | case6 p q src a hp b hq e he ih => simp [DecodeString, hp, hq, he] at h
  | case7 p q src a hp b hq dst1 he ih =>
    simp only [DecodeString, hp, hq, he, Except.ok.injEq] at h
    subst h
    obtain ⟨ha, hpa⟩ := fromHexChar_lower p a (hlow p (by simp)) hp
    obtain ⟨hb, hqb⟩ := fromHexChar_lower q b (hlow q (by simp)) hq
    obtain ⟨j1, j2⟩ := nibbles_join a ha b hb
    have ih1 := ih dst1 (fun c hc => hlow c (by simp [hc])) he
    simp only [EncodeToString, j1, j2, hpa, hqb, ih1]

theorem DecodeString_length (t : GoString) (dst : List Nat) (h : DecodeString t = .ok dst) :
    t.length = 2 * dst.length := by
  induction t using DecodeString.induct generalizing dst with
  | case1 => simp only [DecodeString, Except.ok.injEq] at h; subst h; rfl
  | case2 p hp => simp [DecodeString, hp] at h
  | case3 p a hp => simp [DecodeString, hp] at h
  | case4 p q src hp => simp [DecodeString, hp] at h
  | case5 p q src a hp hq => simp [DecodeString, hp, hq] at h
  | case6 p q src a hp b hq e he ih => simp [DecodeString, hp, hq, he] at h
  | case7 p q src a hp b hq dst1 he ih =>
    simp only [DecodeString, hp, hq, he, Except.ok.injEq] at h
    subst h
    have := ih dst1 he
    simp only [List.length_cons, this]
    omega


/-! ## The loop of `UpdatePowerOfTau` -/

/-- What one pass through the loop body does when the index is inside both point slices
(as far as the G2 branch is taken). -/
theorem loopBody_ok (L : Library) (x : Int) (s : LoopState L)
    (hlen1 : s.G1Points.length = s.t.Powers.G1Powers.length)
    (hlen2 : s.G2Points.length = s.t.Powers.G2Powers.length)
    (hi : s.i < s.G1Points.length)
    (h2 : (s.i : Int) < s.t.NumG2Powers → s.i < s.G2Points.length) :
    ∃ s1, loopBody L x s = .ok s1 ∧ s1.i = s.i + 1 ∧
      s1.xPower = (s.xPower * x) % Modulus ∧
      s1.t.NumG1Powers = s.t.NumG1Powers ∧ s1.t.NumG2Powers = s.t.NumG2Powers ∧
      s1.G1Points.length = s.G1Points.length ∧ s1.G2Points.length = s.G2Points.length ∧
      s1.t.Powers.G1Powers.length = s.t.Powers.G1Powers.length ∧
      s1.t.Powers.G2Powers.length = s.t.Powers.G2Powers.length ∧
      (∀ j, j ≠ s.i → s1.G1Points[j]? = s.G1Points[j]?) ∧
      (∀ j, j ≠ s.i → s1.G2Points[j]? = s.G2Points[j]?) ∧
      (∀ j, s1.t.Powers.G1Powers[j]? =
        if j = s.i then
          (s.G1Points[j]?).map (fun P => encodeG1 L (L.G1.ScalarMultiplication P s.xPower))
        else s.t.Powers.G1Powers[j]?) ∧
      (∀ j, s1.t.Powers.G2Powers[j]? =
        if j = s.i ∧ (j : Int) < s.t.NumG2Powers then
          (s.G2Points[j]?).map (fun Q => encodeG2 L (L.G2.ScalarMultiplication Q s.xPower))
        else s.t.Powers.G2Powers[j]?) := by
  have hP : s.G1Points[s.i]? = some (s.G1Points[s.i]) := List.getElem?_eq_getElem hi
  have hi1 : ¬ s.t.Powers.G1Powers.length ≤ s.i := by omega
  by_cases hc : (s.i : Int) < s.t.NumG2Powers
  · have hi2 := h2 hc
    have hQ : s.G2Points[s.i]? = some (s.G2Points[s.i]) := List.getElem?_eq_getElem hi2
    have hi3 : ¬ s.t.Powers.G2Powers.length ≤ s.i := by omega
    simp only [loopBody, hP, hi1, hc, hQ, hi3, if_true, if_false]
    refine ⟨_, rfl, rfl, rfl, rfl, rfl, by simp, by simp, by simp, by simp, ?_, ?_, ?_, ?_⟩
    · intro j hj; simp [List.getElem?_set_ne (Ne.symm hj)]
    · intro j hj; simp [List.getElem?_set_ne (Ne.symm hj)]
    · intro j
      by_cases hj : j = s.i
      · subst hj; simp [hP, List.getElem?_set_self (by omega : s.i < s.t.Powers.G1Powers.length)]
      · simp [hj, List.getElem?_set_ne (Ne.symm hj)]
    · intro j
      by_cases hj : j = s.i
      · subst hj; simp [hQ, hc, List.getElem?_set_self (by omega : s.i < s.t.Powers.G2Powers.length)]
      · simp [hj, List.getElem?_set_ne (Ne.symm hj)]
  · simp only [loopBody, hP, hi1, hc, if_false]
    refine ⟨_, rfl, rfl, rfl, rfl, rfl, by simp, by simp, by simp, by simp, ?_, ?_, ?_, ?_⟩
    · intro j hj; simp [List.getElem?_set_ne (Ne.symm hj)]
    · intro j hj; rfl
    · intro j
      by_cases hj : j = s.i
      · subst hj; simp [hP, List.getElem?_set_self (by omega : s.i < s.t.Powers.G1Powers.length)]
      · simp [hj, List.getElem?_set_ne (Ne.symm hj)]
    · intro j
      by_cases hj : j = s.i
      · subst hj; simp [hc]
      · simp [hj]


theorem Modulus_pos : 0 < Modulus := by decide

theorem xPower_step (x : Int) (i : Nat) :
    ((x ^ i % Modulus) * x) % Modulus = x ^ (i + 1) % Modulus := by
  rw [pow_succ, Int.mul_emod (x ^ i % Modulus) x, Int.emod_emod, ← Int.mul_emod]

/-- The first `n` passes of the loop succeed when the indices they visit are inside the
slices, and overwrite exactly the visited slots. -/
theorem runLoop_ok (L : Library) (x : Int) (n : Nat) : ∀ (s : LoopState L),
    s.G1Points.length = s.t.Powers.G1Powers.length →
    s.G2Points.length = s.t.Powers.G2Powers.length →
    s.i + n ≤ s.G1Points.length →
    (∀ j, s.i ≤ j → j < s.i + n → (j : Int) < s.t.NumG2Powers → j < s.G2Points.length) →
    s.xPower = x ^ s.i % Modulus →
    ∃ s1, runLoop L x n s = .ok s1 ∧ s1.i = s.i + n ∧
      s1.xPower = x ^ (s.i + n) % Modulus ∧
      s1.t.NumG1Powers = s.t.NumG1Powers ∧ s1.t.NumG2Powers = s.t.NumG2Powers ∧
      s1.t.Powers.G1Powers.length = s.t.Powers.G1Powers.length ∧
      s1.t.Powers.G2Powers.length = s.t.Powers.G2Powers.length ∧
      (∀ j, s1.t.Powers.G1Powers[j]? =
        if s.i ≤ j ∧ j < s.i + n then
          (s.G1Points[j]?).map
            (fun P => encodeG1 L (L.G1.ScalarMultiplication P (x ^ j % Modulus)))
        else s.t.Powers.G1Powers[j]?) ∧
      (∀ j, s1.t.Powers.G2Powers[j]? =
        if s.i ≤ j ∧ j < s.i + n ∧ (j : Int) < s.t.NumG2Powers then
          (s.G2Points[j]?).map
            (fun Q => encodeG2 L (L.G2.ScalarMultiplication Q (x ^ j % Modulus)))
        else s.t.Powers.G2Powers[j]?) := by
  induction n with
  | zero =>
    intro s _ _ _ _ hx
    refine ⟨s, rfl, rfl, hx, rfl, rfl, rfl, rfl, ?_, ?_⟩
    · intro j
      have : ¬ (s.i ≤ j ∧ j < s.i + 0) := by omega
      simp only [this, if_false]
    · intro j
      have : ¬ (s.i ≤ j ∧ j < s.i + 0 ∧ (j : Int) < s.t.NumG2Powers) := by omega
      simp only [this, if_false]
  | succ n ih =>
    intro s hlen1 hlen2 hn h2 hx
    obtain ⟨s1, hb, hi1, hx1, hn1, hn2, hl1, hl2, hl3, hl4, hp1, hp2, hg1, hg2⟩ :=
      loopBody_ok L x s hlen1 hlen2 (by omega) (fun hc => h2 s.i (le_refl _) (by omega) hc)
    have hx2 : s1.xPower = x ^ s1.i % Modulus := by
      rw [hx1, hx, hi1, xPower_step]
    obtain ⟨s2, hr, hi2, hx3, hm1, hm2, hk1, hk2, hf1, hf2⟩ :=
      ih s1 (by omega) (by omega) (by omega)
        (fun j hj1 hj2 hj3 => by
          rw [hl2]
          exact h2 j (by omega) (by omega) (by rw [← hn2]; exact hj3)) hx2
    refine ⟨s2, by simp only [runLoop, hb, hr], by omega, ?_, by omega, by omega, by omega,
      by omega, ?_, ?_⟩
    · rw [hx3, hi1]; congr 2; omega
    · intro j
      rw [hf1 j, hi1]
      by_cases hj : j = s.i
      · subst hj
        have h3 : ¬ (s.i + 1 ≤ s.i ∧ s.i < s.i + 1 + n) := by omega
        have h4 : s.i ≤ s.i ∧ s.i < s.i + (n + 1) := by omega
        simp only [h3, h4, if_false, if_true, and_self, hg1 s.i, hx]
      · by_cases hr : s.i ≤ j ∧ j < s.i + (n + 1)
        · have h3 : s.i + 1 ≤ j ∧ j < s.i + 1 + n := by omega
          simp only [h3, hr, and_self, if_true, hp1 j hj]
        · have h3 : ¬ (s.i + 1 ≤ j ∧ j < s.i + 1 + n) := by omega
          simp only [h3, hr, if_false, hg1 j, hj]
    · intro j
      rw [hf2 j, hi1, hn2]
      by_cases hj : j = s.i
      · subst hj
        have h3 : ¬ (s.i + 1 ≤ s.i ∧ s.i < s.i + 1 + n ∧ (s.i : Int) < s.t.NumG2Powers) := by
          omega
        simp only [h3, if_false, hg2 s.i, true_and, hx]
        by_cases hc : (s.i : Int) < s.t.NumG2Powers
        · have h4 : s.i ≤ s.i ∧ s.i < s.i + (n + 1) ∧ (s.i : Int) < s.t.NumG2Powers :=
            ⟨by omega, by omega, hc⟩
          simp only [hc, h4, and_self, if_true]
        · have h4 : ¬ (s.i ≤ s.i ∧ s.i < s.i + (n + 1) ∧ (s.i : Int) < s.t.NumG2Powers) := by
            intro h; exact hc h.2.2
          simp only [hc, and_false, if_false]
      · by_cases hr : s.i ≤ j ∧ j < s.i + (n + 1) ∧ (j : Int) < s.t.NumG2Powers
        · have h3 : s.i + 1 ≤ j ∧ j < s.i + 1 + n ∧ (j : Int) < s.t.NumG2Powers :=
            ⟨by omega, by omega, hr.2.2⟩
          simp only [h3, hr, and_self, if_true, hp2 j hj]
        · have h3 : ¬ (s.i + 1 ≤ j ∧ j < s.i + 1 + n ∧ (j : Int) < s.t.NumG2Powers) := by
            intro h; exact hr ⟨by omega, by omega, h.2.2⟩
          simp only [h3, hr, if_false, hg2 j, hj, false_and]


/-! ## The batch parsers -/

theorem decodesG1_iff (L : Library) (h : GoString) :
    decodesG1 L h = true ↔ ∃ P, parseG1PointNoSubgroupCheck L h = .ok P := by
  unfold decodesG1
  cases parseG1PointNoSubgroupCheck L h <;> simp [Except.toBool]

theorem decodesG2_iff (L : Library) (h : GoString) :
    decodesG2 L h = true ↔ ∃ Q, parseG2PointNoSubgroupCheck L h = .ok Q := by
  unfold decodesG2
  cases parseG2PointNoSubgroupCheck L h <;> simp [Except.toBool]

/-- A successful batch parse is the element-wise parse, in order. -/
theorem ParseG1Points_ok (L : Library) (hs : List GoString) (ps : List L.G1.Point)
    (h : ParseG1PointsNoSubgroupCheck L hs = .ok ps) :
    ps.length = hs.length ∧
    ∀ (i : Nat) (s : GoString), hs[i]? = some s → ∃ P, ps[i]? = some P ∧ parseG1PointNoSubgroupCheck L s = .ok P := by
  induction hs generalizing ps with
  | nil =>
    simp only [ParseG1PointsNoSubgroupCheck, Except.ok.injEq] at h
    subst h
    simp
  | cons a hs ih =>
    unfold ParseG1PointsNoSubgroupCheck at h
    cases ha : parseG1PointNoSubgroupCheck L a with
    | error f => rw [ha] at h; cases h
    | ok P =>
      cases hr : ParseG1PointsNoSubgroupCheck L hs with
      | error p => rw [ha, hr] at h; cases h
      | ok qs =>
        rw [ha, hr] at h
        simp only [Except.ok.injEq] at h
        subst h
        obtain ⟨hl, he⟩ := ih qs hr
        refine ⟨by simp [hl], ?_⟩
        intro i s hi
        cases i with
        | zero =>
          simp only [List.getElem?_cons_zero, Option.some.injEq] at hi
          subst hi
          exact ⟨P, List.getElem?_cons_zero, ha⟩
        | succ i =>
          simp only [List.getElem?_cons_succ] at hi ⊢
          exact he i s hi

theorem ParseG2Points_ok (L : Library) (hs : List GoString) (qs : List L.G2.Point)
    (h : ParseG2PointsNoSubgroupCheck L hs = .ok qs) :
    qs.length = hs.length ∧
    ∀ (i : Nat) (s : GoString), hs[i]? = some s → ∃ Q, qs[i]? = some Q ∧ parseG2PointNoSubgroupCheck L s = .ok Q := by
  induction hs generalizing qs with
  | nil =>
    simp only [ParseG2PointsNoSubgroupCheck, Except.ok.injEq] at h
    subst h
    simp
  | cons a hs ih =>
    unfold ParseG2PointsNoSubgroupCheck at h
    cases ha : parseG2PointNoSubgroupCheck L a with
    | error f => rw [ha] at h; cases h
    | ok Q =>
      cases hr : ParseG2PointsNoSubgroupCheck L hs with
      | error p => rw [ha, hr] at h; cases h
      | ok rs =>
        rw [ha, hr] at h
        simp only [Except.ok.injEq] at h
        subst h
        obtain ⟨hl, he⟩ := ih rs hr
        refine ⟨by simp [hl], ?_⟩
        intro i s hi
        cases i with
        | zero =>
          simp only [List.getElem?_cons_zero, Option.some.injEq] at hi
          subst hi
          exact ⟨Q, List.getElem?_cons_zero, ha⟩
        | succ i =>
          simp only [List.getElem?_cons_succ] at hi ⊢
          exact he i s hi

/-- The batch parse succeeds exactly when every element decodes. -/
theorem ParseG1Points_isOk_iff (L : Library) (hs : List GoString) :
    (∃ ps, ParseG1PointsNoSubgroupCheck L hs = .ok ps) ↔ ∀ h ∈ hs, decodesG1 L h = true := by
  induction hs with
  | nil => simp [ParseG1PointsNoSubgroupCheck]
  | cons a hs ih =>
    have key : (∃ ps, ParseG1PointsNoSubgroupCheck L (a :: hs) = .ok ps) ↔
        decodesG1 L a = true ∧ ∃ qs, ParseG1PointsNoSubgroupCheck L hs = .ok qs := by
      rw [decodesG1_iff, ParseG1PointsNoSubgroupCheck]
      cases parseG1PointNoSubgroupCheck L a with
      | error f => simp
      | ok P =>
        cases ParseG1PointsNoSubgroupCheck L hs with
        | error p => simp
        | ok qs => simp
    rw [key, ih]
    simp

theorem ParseG2Points_isOk_iff (L : Library) (hs : List GoString) :
    (∃ qs, ParseG2PointsNoSubgroupCheck L hs = .ok qs) ↔ ∀ h ∈ hs, decodesG2 L h = true := by
  induction hs with
  | nil => simp [ParseG2PointsNoSubgroupCheck]
  | cons a hs ih =>
    have key : (∃ ps, ParseG2PointsNoSubgroupCheck L (a :: hs) = .ok ps) ↔
        decodesG2 L a = true ∧ ∃ qs, ParseG2PointsNoSubgroupCheck L hs = .ok qs := by
      rw [decodesG2_iff, ParseG2PointsNoSubgroupCheck]
      cases parseG2PointNoSubgroupCheck L a with
      | error f => simp
      | ok Q =>
        cases ParseG2PointsNoSubgroupCheck L hs with
        | error p => simp
        | ok rs => simp
    rw [key, ih]
    simp

theorem ParseG1Points_error (L : Library) (hs : List GoString)
    (h : ∃ s ∈ hs, decodesG1 L s = false) :
    ∃ p, ParseG1PointsNoSubgroupCheck L hs = .error p := by
  cases hr : ParseG1PointsNoSubgroupCheck L hs with
  | error p => exact ⟨p, rfl⟩
  | ok ps =>
    obtain ⟨s, hs1, hs2⟩ := h
    have := (ParseG1Points_isOk_iff L hs).1 ⟨ps, hr⟩ s hs1
    rw [hs2] at this
    cases this

theorem ParseG2Points_error (L : Library) (hs : List GoString)
    (h : ∃ s ∈ hs, decodesG2 L s = false) :
    ∃ p, ParseG2PointsNoSubgroupCheck L hs = .error p := by
  cases hr : ParseG2PointsNoSubgroupCheck L hs with
  | error p => exact ⟨p, rfl⟩
  | ok qs =>
    obtain ⟨s, hs1, hs2⟩ := h
    have := (ParseG2Points_isOk_iff L hs).1 ⟨qs, hr⟩ s hs1
    rw [hs2] at this
    cases this


/-! ## `UpdatePowerOfTau` on a transcript whose strings decode -/

/-- When both sequences parse, `NumG1Powers` is within the G1 sequence and the G2 indices
visited are within the G2 sequence, the call returns; slot `j` of G1 is rewritten for
`j < NumG1Powers` and slot `j` of G2 for `j < NumG1Powers`, `j < NumG2Powers`, with the
scalar `x ^ j % Modulus`; everything else is as before. -/
theorem UpdatePowerOfTau_returns (L : Library) (t : Transcript) (x : Int)
    (G1Points : List L.G1.Point) (G2Points : List L.G2.Point)
    (hp1 : ParseG1PointsNoSubgroupCheck L t.Powers.G1Powers = .ok G1Points)
    (hp2 : ParseG2PointsNoSubgroupCheck L t.Powers.G2Powers = .ok G2Points)
    (hn1 : t.NumG1Powers ≤ t.Powers.G1Powers.length)
    (hn2 : ∀ j : Nat, (j : Int) < t.NumG1Powers → (j : Int) < t.NumG2Powers →
      j < t.Powers.G2Powers.length) :
    ∃ t1, UpdatePowerOfTau L t x = .returned t1 ∧
      t1.NumG1Powers = t.NumG1Powers ∧ t1.NumG2Powers = t.NumG2Powers ∧
      t1.Powers.G1Powers.length = t.Powers.G1Powers.length ∧
      t1.Powers.G2Powers.length = t.Powers.G2Powers.length ∧
      (∀ j : Nat, t1.Powers.G1Powers[j]? =
        if (j : Int) < t.NumG1Powers then
          (G1Points[j]?).map
            (fun P => encodeG1 L (L.G1.ScalarMultiplication P (x ^ j % Modulus)))
        else t.Powers.G1Powers[j]?) ∧
      (∀ j : Nat, t1.Powers.G2Powers[j]? =
        if (j : Int) < t.NumG1Powers ∧ (j : Int) < t.NumG2Powers then
          (G2Points[j]?).map
            (fun Q => encodeG2 L (L.G2.ScalarMultiplication Q (x ^ j % Modulus)))
        else t.Powers.G2Powers[j]?) := by
  have hl1 := (ParseG1Points_ok L _ _ hp1).1
  have hl2 := (ParseG2Points_ok L _ _ hp2).1
  obtain ⟨s1, hr, _, _, hc1, hc2, hk1, hk2, hf1, hf2⟩ :=
    runLoop_ok L x t.NumG1Powers.toNat
      { i := 0, xPower := 1, G1Points := G1Points, G2Points := G2Points, t := t }
      hl1 hl2 (by simp only [hl1]; omega)
      (fun j _ hj hj2 => by
        simp only [hl2]
        exact hn2 j (by simp only at hj; omega) hj2)
      (by show (1 : Int) = x ^ 0 % Modulus; rw [pow_zero]; decide)
  refine ⟨s1.t, by simp only [UpdatePowerOfTau, hp1, hp2, hr], hc1, hc2, hk1, hk2, ?_, ?_⟩
  · intro j
    rw [hf1 j]
    have : (0 ≤ j ∧ j < 0 + t.NumG1Powers.toNat) ↔ (j : Int) < t.NumG1Powers := by omega
    simp only [this]
  · intro j
    rw [hf2 j]
    have : (0 ≤ j ∧ j < 0 + t.NumG1Powers.toNat ∧ (j : Int) < t.NumG2Powers) ↔
        ((j : Int) < t.NumG1Powers ∧ (j : Int) < t.NumG2Powers) := by omega
    simp only [this]

/-- The form of `UpdatePowerOfTau_returns` for a valid transcript. -/
theorem UpdatePowerOfTau_valid (L : Library) (t : Transcript) (x : Int) (hv : Valid L t) :
    ∃ G1Points G2Points t1,
      ParseG1PointsNoSubgroupCheck L t.Powers.G1Powers = .ok G1Points ∧
      ParseG2PointsNoSubgroupCheck L t.Powers.G2Powers = .ok G2Points ∧
      UpdatePowerOfTau L t x = .returned t1 ∧
      t1.NumG1Powers = t.NumG1Powers ∧ t1.NumG2Powers = t.NumG2Powers ∧
      t1.Powers.G1Powers.length = t.Powers.G1Powers.length ∧
      t1.Powers.G2Powers.length = t.Powers.G2Powers.length ∧
      (∀ j : Nat, t1.Powers.G1Powers[j]? =
        if (j : Int) < t.NumG1Powers then
          (G1Points[j]?).map
            (fun P => encodeG1 L (L.G1.ScalarMultiplication P (x ^ j % Modulus)))
        else t.Powers.G1Powers[j]?) ∧
      (∀ j : Nat, t1.Powers.G2Powers[j]? =
        if (j : Int) < t.NumG1Powers ∧ (j : Int) < t.NumG2Powers then
          (G2Points[j]?).map
            (fun Q => encodeG2 L (L.G2.ScalarMultiplication Q (x ^ j % Modulus)))
        else t.Powers.G2Powers[j]?) := by
  obtain ⟨hn1, hn2, hd1, hd2⟩ := hv
  obtain ⟨G1Points, hp1⟩ := (ParseG1Points_isOk_iff L _).2 hd1
  obtain ⟨G2Points, hp2⟩ := (ParseG2Points_isOk_iff L _).2 hd2
  obtain ⟨t1, h⟩ := UpdatePowerOfTau_returns L t x G1Points G2Points hp1 hp2 hn1
    (fun j _ hj => by omega)
  exact ⟨G1Points, G2Points, t1, hp1, hp2, h⟩


/-! ## The small group is an instance of the library -/

theorem Z13.Decode_Bytes (n : Nat) (p : Fin 13) : Z13.Decode n (Z13.Bytes n p) = some p := by
  have h1 : p.val < 13 := p.isLt
  have h2 : (Fin.ofNat p.val : Fin 13) = p := Fin.ext (Nat.mod_eq_of_lt p.isLt)
  simp [Z13.Decode, Z13.Bytes, h1, h2]

theorem Z13.Bytes_Decode (n : Nat) (byts : List Nat) (p : Fin 13)
    (hlen : byts.length = n + 1) (h : Z13.Decode n byts = some p) : Z13.Bytes n p = byts := by
  cases byts with
  | nil => simp at hlen
  | cons b rest =>
    simp only [List.length_cons, Nat.add_right_cancel_iff] at hlen
    simp only [Z13.Decode] at h
    split_ifs at h with hc
    simp only [Option.some.injEq] at h
    subst h
    have h3 : rest.take n = rest := List.take_of_length_le (by omega)
    simp only [Z13.Bytes, Fin.ofNat, Nat.mod_eq_of_lt hc.1]
    rw [← hc.2, h3]

theorem trim0xPrefix_not_isPrefix (s : GoString) (h : ¬ lit "0x" <+: s) :
    ∃ p, trim0xPrefix s = .error p := by
  unfold trim0xPrefix
  split_ifs with h1 h2
  · exact ⟨_, rfl⟩
  · exact ⟨_, rfl⟩
  · exfalso
    apply h
    simp only [ne_eq, Decidable.not_not] at h2
    exact ⟨s.drop 2, by rw [← h2, List.take_append_drop]⟩

/-! ## Decoding what the code encodes -/

theorem parseG1_encodeG1 (L : Library) (P : L.G1.Point)
    (h : L.G1.Decode (L.G1.Bytes P) = some P) :
    parseG1PointNoSubgroupCheck L (encodeG1 L P) = .ok P := by
  simp only [parseG1PointNoSubgroupCheck, encodeG1, trim0xPrefix_append,
    DecodeString_EncodeToString _ (L.G1.Bytes_lt P), h]

theorem parseG2_encodeG2 (L : Library) (Q : L.G2.Point)
    (h : L.G2.Decode (L.G2.Bytes Q) = some Q) :
    parseG2PointNoSubgroupCheck L (encodeG2 L Q) = .ok Q := by
  simp only [parseG2PointNoSubgroupCheck, encodeG2, trim0xPrefix_append,
    DecodeString_EncodeToString _ (L.G2.Bytes_lt Q), h]

/-! ## The claims -/

/-- C1, as amended: for every secret `x` and every valid transcript the call returns and,
for every `i < NumG1Powers`, `G1Powers[i]` holds the encoding of the point `W_i` that the
library's `ScalarMultiplication` gives for `P_i` and the reduced scalar `x ^ i mod r`, `P_i`
the point the original `G1Powers[i]` decoded to, and it decodes to `W_i` when the library
decoder reads the bytes of `W_i` back as `W_i`; for every such `i` that is also
`< NumG2Powers` the same holds of `G2Powers[i]` and `Q_i`. `W_i` is what
`ScalarMultiplication` gives for `P_i` and `x ^ i` when its results for `P_i` depend only on
the scalar modulo `r` (a point of order dividing `r`), and in any case when
`0 <= x ^ i < r`. -/
theorem power_correctness (L : Library) (t : Transcript) (x : Int) (hv : Valid L t) :
    ∃ t1, UpdatePowerOfTau L t x = .returned t1 ∧
      (∀ i : Nat, (i : Int) < t.NumG1Powers →
        ∃ h P, t.Powers.G1Powers[i]? = some h ∧
          parseG1PointNoSubgroupCheck L h = .ok P ∧
          t1.Powers.G1Powers[i]? =
            some (encodeG1 L (L.G1.ScalarMultiplication P (x ^ i % Modulus))) ∧
          (L.G1.Decode (L.G1.Bytes (L.G1.ScalarMultiplication P (x ^ i % Modulus))) =
              some (L.G1.ScalarMultiplication P (x ^ i % Modulus)) →
            parseG1PointNoSubgroupCheck L
                (encodeG1 L (L.G1.ScalarMultiplication P (x ^ i % Modulus))) =
              .ok (L.G1.ScalarMultiplication P (x ^ i % Modulus))) ∧
          ((∀ k : Int, L.G1.ScalarMultiplication P (k % Modulus) =
              L.G1.ScalarMultiplication P k) →
            L.G1.ScalarMultiplication P (x ^ i % Modulus) =
              L.G1.ScalarMultiplication P (x ^ i)) ∧
          (0 ≤ x ^ i → x ^ i < Modulus →
            L.G1.ScalarMultiplication P (x ^ i % Modulus) =
              L.G1.ScalarMultiplication P (x ^ i))) ∧
      (∀ i : Nat, (i : Int) < t.NumG1Powers → (i : Int) < t.NumG2Powers →
        ∃ h Q, t.Powers.G2Powers[i]? = some h ∧
          parseG2PointNoSubgroupCheck L h = .ok Q ∧
          t1.Powers.G2Powers[i]? =
            some (encodeG2 L (L.G2.ScalarMultiplication Q (x ^ i % Modulus))) ∧
          (L.G2.Decode (L.G2.Bytes (L.G2.ScalarMultiplication Q (x ^ i % Modulus))) =
              some (L.G2.ScalarMultiplication Q (x ^ i % Modulus)) →
            parseG2PointNoSubgroupCheck L
                (encodeG2 L (L.G2.ScalarMultiplication Q (x ^ i % Modulus))) =
              .ok (L.G2.ScalarMultiplication Q (x ^ i % Modulus))) ∧
          ((∀ k : Int, L.G2.ScalarMultiplication Q (k % Modulus) =
              L.G2.ScalarMultiplication Q k) →
            L.G2.ScalarMultiplication Q (x ^ i % Modulus) =
              L.G2.ScalarMultiplication Q (x ^ i)) ∧
          (0 ≤ x ^ i → x ^ i < Modulus →
            L.G2.ScalarMultiplication Q (x ^ i % Modulus) =
              L.G2.ScalarMultiplication Q (x ^ i))) := by
  obtain ⟨G1Points, G2Points, t1, hp1, hp2, hr, _, _, _, _, hf1, hf2⟩ :=
    UpdatePowerOfTau_valid L t x hv
  obtain ⟨hn1, hn2, _, _⟩ := hv
  refine ⟨t1, hr, ?_, ?_⟩
  · intro i hi
    have hlt : i < t.Powers.G1Powers.length := by omega
    obtain ⟨P, hP, hparse⟩ :=
      (ParseG1Points_ok L _ _ hp1).2 i _ (List.getElem?_eq_getElem hlt)
    have hslot := hf1 i
    simp only [hi, if_true, hP, Option.map_some'] at hslot
    exact ⟨_, P, List.getElem?_eq_getElem hlt, hparse, hslot, parseG1_encodeG1 L _,
      fun hk => hk _, fun h0 h1 => by rw [Int.emod_eq_of_lt h0 h1]⟩
  · intro i hi hi2
    have hlt : i < t.Powers.G2Powers.length := by omega
    obtain ⟨Q, hQ, hparse⟩ :=
      (ParseG2Points_ok L _ _ hp2).2 i _ (List.getElem?_eq_getElem hlt)
    have hslot := hf2 i
    simp only [hi, hi2, and_self, if_true, hQ, Option.map_some'] at hslot
    exact ⟨_, Q, List.getElem?_eq_getElem hlt, hparse, hslot, parseG2_encodeG2 L _,
      fun hk => hk _, fun h0 h1 => by rw [Int.emod_eq_of_lt h0 h1]⟩

/-- C1, witness: the end-to-end scenario (`NumG1Powers = 4`, `NumG2Powers = 2`, secret 5) on
the small group gives `[P0, 5 * P1, 25 * P2, 125 * P3]` and `[Q0, 5 * Q1]`, each slot
decoding to its point; the theorem applies to it. -/
theorem power_correctness_witness :
    UpdatePowerOfTau Z13.lib Z13.scenario 5 = .returned
      { NumG1Powers := 4, NumG2Powers := 2,
        Powers := { G1Powers := [Z13.hexG1 1, Z13.hexG1 (5 * 2), Z13.hexG1 (25 * 3),
                                 Z13.hexG1 (125 * 4)],
                    G2Powers := [Z13.hexG2 1, Z13.hexG2 (5 * 2)] } } ∧
    parseG1PointNoSubgroupCheck Z13.lib (Z13.hexG1 (125 * 4)) = .ok (125 * 4 : Fin 13) ∧
    parseG2PointNoSubgroupCheck Z13.lib (Z13.hexG2 (5 * 2)) = .ok (5 * 2 : Fin 13) ∧
    ∃ t1, UpdatePowerOfTau Z13.lib Z13.scenario 5 = .returned t1 ∧
      (∀ i : Nat, (i : Int) < Z13.scenario.NumG1Powers →
        ∃ h P, Z13.scenario.Powers.G1Powers[i]? = some h ∧
          parseG1PointNoSubgroupCheck Z13.lib h = .ok P ∧
          t1.Powers.G1Powers[i]? =
            some (encodeG1 Z13.lib (Z13.lib.G1.ScalarMultiplication P (5 ^ i % Modulus))) ∧
          (Z13.lib.G1.Decode
              (Z13.lib.G1.Bytes (Z13.lib.G1.ScalarMultiplication P (5 ^ i % Modulus))) =
              some (Z13.lib.G1.ScalarMultiplication P (5 ^ i % Modulus)) →
            parseG1PointNoSubgroupCheck Z13.lib
                (encodeG1 Z13.lib (Z13.lib.G1.ScalarMultiplication P (5 ^ i % Modulus))) =
              .ok (Z13.lib.G1.ScalarMultiplication P (5 ^ i % Modulus))) ∧
          ((∀ k : Int, Z13.lib.G1.ScalarMultiplication P (k % Modulus) =
              Z13.lib.G1.ScalarMultiplication P k) →
            Z13.lib.G1.ScalarMultiplication P (5 ^ i % Modulus) =
              Z13.lib.G1.ScalarMultiplication P (5 ^ i)) ∧
          ((0 : Int) ≤ 5 ^ i → (5 : Int) ^ i < Modulus →
            Z13.lib.G1.ScalarMultiplication P (5 ^ i % Modulus) =
              Z13.lib.G1.ScalarMultiplication P (5 ^ i))) ∧
      (∀ i : Nat, (i : Int) < Z13.scenario.NumG1Powers →
        (i : Int) < Z13.scenario.NumG2Powers →
        ∃ h Q, Z13.scenario.Powers.G2Powers[i]? = some h ∧
          parseG2PointNoSubgroupCheck Z13.lib h = .ok Q ∧
          t1.Powers.G2Powers[i]? =
            some (encodeG2 Z13.lib (Z13.lib.G2.ScalarMultiplication Q (5 ^ i % Modulus))) ∧
          (Z13.lib.G2.Decode
              (Z13.lib.G2.Bytes (Z13.lib.G2.ScalarMultiplication Q (5 ^ i % Modulus))) =
              some (Z13.lib.G2.ScalarMultiplication Q (5 ^ i % Modulus)) →
            parseG2PointNoSubgroupCheck Z13.lib
                (encodeG2 Z13.lib (Z13.lib.G2.ScalarMultiplication Q (5 ^ i % Modulus))) =
              .ok (Z13.lib.G2.ScalarMultiplication Q (5 ^ i % Modulus))) ∧
          ((∀ k : Int, Z13.lib.G2.ScalarMultiplication Q (k % Modulus) =
              Z13.lib.G2.ScalarMultiplication Q k) →
            Z13.lib.G2.ScalarMultiplication Q (5 ^ i % Modulus) =
              Z13.lib.G2.ScalarMultiplication Q (5 ^ i)) ∧
          ((0 : Int) ≤ 5 ^ i → (5 : Int) ^ i < Modulus →
            Z13.lib.G2.ScalarMultiplication Q (5 ^ i % Modulus) =
              Z13.lib.G2.ScalarMultiplication Q (5 ^ i))) :=
  ⟨by decide, rfl, rfl, power_correctness Z13.lib Z13.scenario 5 (by decide)⟩

/-- C1, counterexample, in two parts. First, over the small group (whose decoder reads back
what `Bytes` writes) the transcript `Z13.pair` is valid and `G1Powers[1]` decodes to the
point 1; after the call with secret `-1`, `G1Powers[1]` decodes to the point 6, which is
`((-1) ^ 1 mod r) * 1`, while `(-1) ^ 1 * 1` is the point 12. Second, over the group modulo
26 the transcript `Z26.offCurve` is valid and `G1Powers[1]` decodes to the odd point 1;
after the call with secret 3 (`3 ^ 1 < r`), `G1Powers[1]` holds the string of `3 * 1`, which
the parser rejects: it decodes to no point. -/
theorem power_correctness_counterexample :
    ((∀ P, Z13.lib.G1.Decode (Z13.lib.G1.Bytes P) = some P) ∧
      Valid Z13.lib Z13.pair ∧
      Z13.pair.Powers.G1Powers[1]? = some (Z13.hexG1 1) ∧
      parseG1PointNoSubgroupCheck Z13.lib (Z13.hexG1 1) = .ok (1 : Fin 13) ∧
      UpdatePowerOfTau Z13.lib Z13.pair (-1) = .returned
        { NumG1Powers := 2, NumG2Powers := 1,
          Powers := { G1Powers := [Z13.hexG1 1, Z13.hexG1 6], G2Powers := [Z13.hexG2 1] } } ∧
      parseG1PointNoSubgroupCheck Z13.lib (Z13.hexG1 6) = .ok (6 : Fin 13) ∧
      Z13.lib.G1.ScalarMultiplication (1 : Fin 13) ((-1) ^ 1 % Modulus) = (6 : Fin 13) ∧
      Z13.lib.G1.ScalarMultiplication (1 : Fin 13) ((-1) ^ 1) = (12 : Fin 13) ∧
      (6 : Fin 13) ≠ 12) ∧
    (Valid Z26.lib Z26.offCurve ∧
      Z26.offCurve.Powers.G1Powers[1]? = some (Z26.rawG1 1) ∧
      parseG1PointNoSubgroupCheck Z26.lib (Z26.rawG1 1) = .ok (1 : Fin 26) ∧
      Z26.lib.G1.ScalarMultiplication (1 : Fin 26) (3 ^ 1) = (3 : Fin 26) ∧
      UpdatePowerOfTau Z26.lib Z26.offCurve 3 = .returned
        { NumG1Powers := 2, NumG2Powers := 0,
          Powers := { G1Powers := [encodeG1 Z26.lib (1 : Fin 26),
                                   encodeG1 Z26.lib (3 : Fin 26)],
                      G2Powers := [] } } ∧
      parseG1PointNoSubgroupCheck Z26.lib (encodeG1 Z26.lib (3 : Fin 26)) =
        .error (.returned .decoder)) :=
  ⟨⟨Z13.Decode_Bytes 47, by decide, rfl, rfl, by decide, rfl, rfl, rfl, by decide⟩,
    ⟨by decide, rfl, rfl, rfl, by decide, rfl⟩⟩


/-- C2, as amended: for every secret `x` and every valid transcript the call returns, and
for every `i < NumG2Powers`: when `i < NumG1Powers`, `G2Powers[i]` has been overwritten with
the encoding of `(x ^ i mod r) * Q_i`, `Q_i` the original point at `i`; when
`NumG1Powers <= i` the slot holds the string it held before. The index walks up to
`NumG1Powers`, and G2 is updated while the index is also below `NumG2Powers`. -/
theorem long_group_postcondition (L : Library) (t : Transcript) (x : Int) (hv : Valid L t) :
    ∃ t1, UpdatePowerOfTau L t x = .returned t1 ∧
      ∀ i : Nat, (i : Int) < t.NumG2Powers →
        ((i : Int) < t.NumG1Powers →
          ∃ h Q, t.Powers.G2Powers[i]? = some h ∧
            parseG2PointNoSubgroupCheck L h = .ok Q ∧
            t1.Powers.G2Powers[i]? =
              some (encodeG2 L (L.G2.ScalarMultiplication Q (x ^ i % Modulus)))) ∧
        (t.NumG1Powers ≤ (i : Int) → t1.Powers.G2Powers[i]? = t.Powers.G2Powers[i]?) := by
  obtain ⟨G1Points, G2Points, t1, hp1, hp2, hr, _, _, _, _, hf1, hf2⟩ :=
    UpdatePowerOfTau_valid L t x hv
  obtain ⟨hn1, hn2, _, _⟩ := hv
  refine ⟨t1, hr, ?_⟩
  intro i hi2
  constructor
  · intro hi
    have hlt : i < t.Powers.G2Powers.length := by omega
    obtain ⟨Q, hQ, hparse⟩ :=
      (ParseG2Points_ok L _ _ hp2).2 i _ (List.getElem?_eq_getElem hlt)
    have hslot := hf2 i
    simp only [hi, hi2, and_self, if_true, hQ, Option.map_some'] at hslot
    exact ⟨_, Q, List.getElem?_eq_getElem hlt, hparse, hslot⟩
  · intro hi
    have hslot := hf2 i
    have hneg : ¬ ((i : Int) < t.NumG1Powers ∧ (i : Int) < t.NumG2Powers) := by omega
    simp only [hneg, if_false] at hslot
    exact hslot

/-- C2, witness: the theorem at the transcript `Z13.longer`, where
`NumG2Powers > NumG1Powers`, with secret 3. -/
theorem long_group_postcondition_witness :
    ∃ t1, UpdatePowerOfTau Z13.lib Z13.longer 3 = .returned t1 ∧
      ∀ i : Nat, (i : Int) < Z13.longer.NumG2Powers →
        ((i : Int) < Z13.longer.NumG1Powers →
          ∃ h Q, Z13.longer.Powers.G2Powers[i]? = some h ∧
            parseG2PointNoSubgroupCheck Z13.lib h = .ok Q ∧
            t1.Powers.G2Powers[i]? =
              some (encodeG2 Z13.lib (Z13.lib.G2.ScalarMultiplication Q (3 ^ i % Modulus)))) ∧
        (Z13.longer.NumG1Powers ≤ (i : Int) →
          t1.Powers.G2Powers[i]? = Z13.longer.Powers.G2Powers[i]?) :=
  long_group_postcondition Z13.lib Z13.longer 3 (by decide)

/-- C2, counterexample: the transcript `Z13.longer` is valid with `NumG1Powers = 1` and
`NumG2Powers = 2`, and `G2Powers[1]` decodes to the point 1; after the call with secret 3
the slot `G2Powers[1]`, which is below `NumG2Powers`, still holds its original string and
not the encoding of `3 ^ 1 * 1`, the point 3. -/
theorem long_group_postcondition_counterexample :
    Valid Z13.lib Z13.longer ∧
    parseG2PointNoSubgroupCheck Z13.lib (Z13.hexG2 1) = .ok (1 : Fin 13) ∧
    UpdatePowerOfTau Z13.lib Z13.longer 3 = .returned Z13.longer ∧
    Z13.longer.Powers.G2Powers[1]? = some (Z13.hexG2 1) ∧
    Z13.lib.G2.ScalarMultiplication (1 : Fin 13) (3 ^ 1) = (3 : Fin 13) ∧
    Z13.hexG2 1 ≠ encodeG2 Z13.lib (3 : Fin 13) :=
  ⟨by decide, rfl, by decide, rfl, rfl, by decide⟩

/-- The power `xPower` after one pass of the loop body, whatever the indices. -/
theorem loopBody_xPower (L : Library) (x : Int) (s s1 : LoopState L)
    (h : loopBody L x s = .ok s1) : s1.xPower = (s.xPower * x) % Modulus := by
  unfold loopBody at h
  split at h
  · cases h
  · simp only at h
    split_ifs at h <;> (try split at h) <;> cases h <;> rfl

theorem runLoop_xPower (L : Library) (x : Int) (n : Nat) :
    ∀ (k : Nat) (s s1 : LoopState L), s.xPower = x ^ k % Modulus →
      runLoop L x n s = .ok s1 → s1.xPower = x ^ (k + n) % Modulus := by
  induction n with
  | zero =>
    intro k s s1 hx h
    simp only [runLoop, Except.ok.injEq] at h
    subst h
    exact hx
  | succ n ih =>
    intro k s s1 hx h
    unfold runLoop at h
    cases hb : loopBody L x s with
    | error e => rw [hb] at h; cases h
    | ok s2 =>
      rw [hb] at h
      have h2 : s2.xPower = x ^ (k + 1) % Modulus := by
        rw [loopBody_xPower L x s s2 hb, hx, xPower_step]
      have := ih (k + 1) s2 s1 h2 h
      rw [this]
      congr 2
      omega

/-- C3: for every integer secret `x` and every `n`, when the loop, started with
`xPower = 1`, has made `n` passes, `xPower` equals `x ^ n mod r` (non-negative remainder)
and lies in `[0, r)`. -/
theorem exponent_reduction (L : Library) (x : Int) (n : Nat) (s s1 : LoopState L)
    (h1 : s.xPower = 1) (hrun : runLoop L x n s = .ok s1) :
    s1.xPower = x ^ n % Modulus ∧ 0 ≤ s1.xPower ∧ s1.xPower < Modulus := by
  have h := runLoop_xPower L x n 0 s s1 (by rw [h1, pow_zero]; decide) hrun
  rw [Nat.zero_add] at h
  rw [h]
  exact ⟨rfl, Int.emod_nonneg _ (ne_of_gt Modulus_pos), Int.emod_lt_of_pos _ Modulus_pos⟩


/-- C3, witness: three passes from `Z13.start` with the negative secret `-2` leave
`xPower = (-2) ^ 3 mod r = r - 8`. -/
theorem exponent_reduction_witness :
    ∃ s1, runLoop Z13.lib (-2) 3 Z13.start = .ok s1 ∧ s1.xPower = Modulus - 8 ∧
      s1.xPower = (-2) ^ 3 % Modulus ∧ 0 ≤ s1.xPower ∧ s1.xPower < Modulus :=
  match h : runLoop Z13.lib (-2) 3 Z13.start with
  | .ok s1 =>
    ⟨s1, rfl, by simp only [(exponent_reduction Z13.lib (-2) 3 Z13.start s1 rfl h).1]; decide,
      exponent_reduction Z13.lib (-2) 3 Z13.start s1 rfl h⟩
  | .error e => by
    have h2 : (runLoop Z13.lib (-2) 3 Z13.start).toBool = true := rfl
    rw [h] at h2
    cases h2

/-- C4: for every secret `x` and every valid transcript the call returns and changes
nothing except the slots `G1Powers[0..NumG1Powers)` and `G2Powers[0..NumG2Powers)`: both
counts and both lengths are unchanged, every `G1Powers[i]` with `i >= NumG1Powers` and every
`G2Powers[i]` with `i >= NumG2Powers` is the string it was. -/
theorem frame (L : Library) (t : Transcript) (x : Int) (hv : Valid L t) :
    ∃ t1, UpdatePowerOfTau L t x = .returned t1 ∧
      t1.NumG1Powers = t.NumG1Powers ∧ t1.NumG2Powers = t.NumG2Powers ∧
      t1.Powers.G1Powers.length = t.Powers.G1Powers.length ∧
      t1.Powers.G2Powers.length = t.Powers.G2Powers.length ∧
      (∀ i : Nat, t.NumG1Powers ≤ (i : Int) →
        t1.Powers.G1Powers[i]? = t.Powers.G1Powers[i]?) ∧
      (∀ i : Nat, t.NumG2Powers ≤ (i : Int) →
        t1.Powers.G2Powers[i]? = t.Powers.G2Powers[i]?) := by
  obtain ⟨G1Points, G2Points, t1, _, _, hr, hc1, hc2, hl1, hl2, hf1, hf2⟩ :=
    UpdatePowerOfTau_valid L t x hv
  refine ⟨t1, hr, hc1, hc2, hl1, hl2, ?_, ?_⟩
  · intro i hi
    have hneg : ¬ (i : Int) < t.NumG1Powers := by omega
    rw [hf1 i]
    simp only [hneg, if_false]
  · intro i hi
    have hneg : ¬ ((i : Int) < t.NumG1Powers ∧ (i : Int) < t.NumG2Powers) := by omega
    rw [hf2 i]
    simp only [hneg, if_false]

/-- C4, witness: the call on `Z13.slack` with secret 3 rewrites the counted slots (slot 1
of G1 becomes `3 * 3`) and leaves the last slot of each sequence as it was; the theorem
applies to it. -/
theorem frame_witness :
    UpdatePowerOfTau Z13.lib Z13.slack 3 = .returned
      { NumG1Powers := 2, NumG2Powers := 1,
        Powers := { G1Powers := [Z13.hexG1 2, Z13.hexG1 9, Z13.hexG1 4],
                    G2Powers := [Z13.hexG2 4, Z13.hexG2 5] } } ∧
    ∃ t1, UpdatePowerOfTau Z13.lib Z13.slack 3 = .returned t1 ∧
      t1.NumG1Powers = Z13.slack.NumG1Powers ∧ t1.NumG2Powers = Z13.slack.NumG2Powers ∧
      t1.Powers.G1Powers.length = Z13.slack.Powers.G1Powers.length ∧
      t1.Powers.G2Powers.length = Z13.slack.Powers.G2Powers.length ∧
      (∀ i : Nat, Z13.slack.NumG1Powers ≤ (i : Int) →
        t1.Powers.G1Powers[i]? = Z13.slack.Powers.G1Powers[i]?) ∧
      (∀ i : Nat, Z13.slack.NumG2Powers ≤ (i : Int) →
        t1.Powers.G2Powers[i]? = Z13.slack.Powers.G2Powers[i]?) :=
  ⟨by decide, frame Z13.lib Z13.slack 3 (by decide)⟩

/-- C5, as amended: for every transcript whose counts are within the sequence lengths and
every secret `x`, the call either returns with every G1 slot below `NumG1Powers` and every
G2 slot below both counts overwritten (with the encoding of `(x ^ i mod r)` times the
original point), or panics leaving the transcript exactly as it was before the call. -/
theorem atomicity (L : Library) (t : Transcript) (x : Int)
    (hn1 : t.NumG1Powers ≤ t.Powers.G1Powers.length)
    (hn2 : t.NumG2Powers ≤ t.Powers.G2Powers.length) :
    (∃ t1, UpdatePowerOfTau L t x = .returned t1 ∧
      (∀ i : Nat, (i : Int) < t.NumG1Powers →
        ∃ h P, t.Powers.G1Powers[i]? = some h ∧ parseG1PointNoSubgroupCheck L h = .ok P ∧
          t1.Powers.G1Powers[i]? =
            some (encodeG1 L (L.G1.ScalarMultiplication P (x ^ i % Modulus)))) ∧
      (∀ i : Nat, (i : Int) < t.NumG1Powers → (i : Int) < t.NumG2Powers →
        ∃ h Q, t.Powers.G2Powers[i]? = some h ∧ parseG2PointNoSubgroupCheck L h = .ok Q ∧
          t1.Powers.G2Powers[i]? =
            some (encodeG2 L (L.G2.ScalarMultiplication Q (x ^ i % Modulus))))) ∨
    (∃ p, UpdatePowerOfTau L t x = .panicked p t) := by
  cases hp1 : ParseG1PointsNoSubgroupCheck L t.Powers.G1Powers with
  | error p => exact Or.inr ⟨p, by simp only [UpdatePowerOfTau, hp1]⟩
  | ok G1Points =>
    cases hp2 : ParseG2PointsNoSubgroupCheck L t.Powers.G2Powers with
    | error p => exact Or.inr ⟨p, by simp only [UpdatePowerOfTau, hp1, hp2]⟩
    | ok G2Points =>
      left
      obtain ⟨t1, hr, _, _, _, _, hf1, hf2⟩ :=
        UpdatePowerOfTau_returns L t x G1Points G2Points hp1 hp2 hn1 (fun j _ hj => by omega)
      refine ⟨t1, hr, ?_, ?_⟩
      · intro i hi
        have hlt : i < t.Powers.G1Powers.length := by omega
        obtain ⟨P, hP, hparse⟩ :=
          (ParseG1Points_ok L _ _ hp1).2 i _ (List.getElem?_eq_getElem hlt)
        have hslot := hf1 i
        simp only [hi, if_true, hP, Option.map_some'] at hslot
        exact ⟨_, P, List.getElem?_eq_getElem hlt, hparse, hslot⟩
      · intro i hi hi2
        have hlt : i < t.Powers.G2Powers.length := by omega
        obtain ⟨Q, hQ, hparse⟩ :=
          (ParseG2Points_ok L _ _ hp2).2 i _ (List.getElem?_eq_getElem hlt)
        have hslot := hf2 i
        simp only [hi, hi2, and_self, if_true, hQ, Option.map_some'] at hslot
        exact ⟨_, Q, List.getElem?_eq_getElem hlt, hparse, hslot⟩

/-- C5, witness: on `Z13.corrupt`, whose counts are within the lengths, the call panics on
the string `0xzz` and leaves the transcript as it was; the theorem applies to it. -/
theorem atomicity_witness :
    UpdatePowerOfTau Z13.lib Z13.corrupt 5 =
      .panicked (.ofError (.InvalidByteError 122)) Z13.corrupt ∧
    ((∃ t1, UpdatePowerOfTau Z13.lib Z13.corrupt 5 = .returned t1 ∧
      (∀ i : Nat, (i : Int) < Z13.corrupt.NumG1Powers →
        ∃ h P, Z13.corrupt.Powers.G1Powers[i]? = some h ∧
          parseG1PointNoSubgroupCheck Z13.lib h = .ok P ∧
          t1.Powers.G1Powers[i]? =
            some (encodeG1 Z13.lib (Z13.lib.G1.ScalarMultiplication P (5 ^ i % Modulus)))) ∧
      (∀ i : Nat, (i : Int) < Z13.corrupt.NumG1Powers → (i : Int) < Z13.corrupt.NumG2Powers →
        ∃ h Q, Z13.corrupt.Powers.G2Powers[i]? = some h ∧
          parseG2PointNoSubgroupCheck Z13.lib h = .ok Q ∧
          t1.Powers.G2Powers[i]? =
            some (encodeG2 Z13.lib (Z13.lib.G2.ScalarMultiplication Q (5 ^ i % Modulus))))) ∨
    (∃ p, UpdatePowerOfTau Z13.lib Z13.corrupt 5 = .panicked p Z13.corrupt)) :=
  ⟨by decide, atomicity Z13.lib Z13.corrupt 5 (by decide) (by decide)⟩

/-- C5, counterexample: on `Z13.overcount` (`NumG1Powers = 3`, two G1 strings) with secret
3 the call panics with an index out of range at `i = 2`, after slot 1 of `G1Powers` has been
overwritten: the transcript left behind differs from the one before the call. -/
theorem atomicity_counterexample :
    UpdatePowerOfTau Z13.lib Z13.overcount 3 = .panicked .indexOutOfRange
      { NumG1Powers := 3, NumG2Powers := 0,
        Powers := { G1Powers := [Z13.hexG1 1, Z13.hexG1 3], G2Powers := [] } } ∧
    ({ NumG1Powers := 3, NumG2Powers := 0,
       Powers := { G1Powers := [Z13.hexG1 1, Z13.hexG1 3], G2Powers := [] } } : Transcript)
      ≠ Z13.overcount :=
  ⟨by decide, by decide⟩


/-- C6: a string that does not begin with `0x` (the empty and the one-character strings
included) makes both single-point parsers panic, so they yield no point; for `0x` followed
by `t` of odd length or with a character outside `0-9a-fA-F` both return an error; and on a
string that begins with `0x`, `trim0xPrefix` returns the string without its first two
characters. -/
theorem malformed_input_rejected (L : Library) (s t : GoString) :
    (¬ lit "0x" <+: s →
      (∃ p, parseG1PointNoSubgroupCheck L s = .error (.panicked p)) ∧
      (∃ p, parseG2PointNoSubgroupCheck L s = .error (.panicked p))) ∧
    ((t.length % 2 = 1 ∨ ∃ c ∈ t, isHex c = false) →
      (∃ e, parseG1PointNoSubgroupCheck L (lit "0x" ++ t) = .error (.returned e)) ∧
      (∃ e, parseG2PointNoSubgroupCheck L (lit "0x" ++ t) = .error (.returned e))) ∧
    (lit "0x" <+: s → trim0xPrefix s = .ok (s.drop 2)) := by
  refine ⟨?_, ?_, ?_⟩
  · intro h
    obtain ⟨p, hp⟩ := trim0xPrefix_not_isPrefix s h
    exact ⟨⟨p, by simp only [parseG1PointNoSubgroupCheck, hp]⟩,
      ⟨p, by simp only [parseG2PointNoSubgroupCheck, hp]⟩⟩
  · intro h
    have he : ∃ e, DecodeString t = .error e := by
      rcases h with h | h
      · exact DecodeString_odd t h
      · exact DecodeString_invalid t h
    obtain ⟨e, he⟩ := he
    exact ⟨⟨e, by simp only [parseG1PointNoSubgroupCheck, trim0xPrefix_append, he]⟩,
      ⟨e, by simp only [parseG2PointNoSubgroupCheck, trim0xPrefix_append, he]⟩⟩
  · rintro ⟨r, rfl⟩
    rw [trim0xPrefix_append]
    rfl

/-- C6, witness: the empty string, the string `0` and `0Xab` make the G1 parser panic,
`0xabc` (odd length) and `0x0g` (invalid character) make it return an error, and
`trim0xPrefix` of `0x0a` is `0a`. -/
theorem malformed_input_rejected_witness :
    parseG1PointNoSubgroupCheck Z13.lib [] = .error (.panicked .sliceBounds) ∧
    parseG1PointNoSubgroupCheck Z13.lib (lit "0") = .error (.panicked .sliceBounds) ∧
    ((∃ p, parseG1PointNoSubgroupCheck Z13.lib (lit "0Xab") = .error (.panicked p)) ∧
      (∃ p, parseG2PointNoSubgroupCheck Z13.lib (lit "0Xab") = .error (.panicked p))) ∧
    ((∃ e, parseG1PointNoSubgroupCheck Z13.lib (lit "0x" ++ lit "abc") =
        .error (.returned e)) ∧
      (∃ e, parseG2PointNoSubgroupCheck Z13.lib (lit "0x" ++ lit "abc") =
        .error (.returned e))) ∧
    ((∃ e, parseG1PointNoSubgroupCheck Z13.lib (lit "0x" ++ lit "0g") =
        .error (.returned e)) ∧
      (∃ e, parseG2PointNoSubgroupCheck Z13.lib (lit "0x" ++ lit "0g") =
        .error (.returned e))) ∧
    trim0xPrefix (lit "0x0a") = .ok ((lit "0x0a").drop 2) :=
  ⟨rfl, rfl,
    (malformed_input_rejected Z13.lib (lit "0Xab") []).1 (by decide),
    (malformed_input_rejected Z13.lib [] (lit "abc")).2.1 (Or.inl (by decide)),
    (malformed_input_rejected Z13.lib [] (lit "0g")).2.1
      (Or.inr ⟨103, by decide, by decide⟩),
    (malformed_input_rejected Z13.lib (lit "0x0a") []).2.2 (by decide)⟩

/-- C7, as amended: for every string `h` that `parseG1PointNoSubgroupCheck` (resp.
`parseG2PointNoSubgroupCheck`) accepts, whose hex part decodes to exactly 48 (resp. 96)
bytes and is written with the digits `0-9a-f` only, over a library whose `Bytes` returns
the bytes its decoder read, `"0x" + hex.EncodeToString(point.Bytes())` is exactly `h`. -/
theorem string_round_trip (L : Library) (h : GoString)
    (hlow : ∀ c ∈ h.drop 2, isLowerHex c = true) :
    (∀ P byts, parseG1PointNoSubgroupCheck L h = .ok P →
      DecodeString (h.drop 2) = .ok byts → byts.length = 48 →
      (∀ bs R, bs.length = 48 → L.G1.Decode bs = some R → L.G1.Bytes R = bs) →
      encodeG1 L P = h) ∧
    (∀ Q byts, parseG2PointNoSubgroupCheck L h = .ok Q →
      DecodeString (h.drop 2) = .ok byts → byts.length = 96 →
      (∀ bs R, bs.length = 96 → L.G2.Decode bs = some R → L.G2.Bytes R = bs) →
      encodeG2 L Q = h) := by
  constructor
  · intro P byts hp hd hlen hcanon
    unfold parseG1PointNoSubgroupCheck at hp
    cases ht : trim0xPrefix h with
    | error p => rw [ht] at hp; cases hp
    | ok trimmed =>
      have hh := (trim0xPrefix_ok_iff h trimmed).1 ht
      subst hh
      have hdrop : (lit "0x" ++ trimmed).drop 2 = trimmed := rfl
      rw [hdrop] at hd hlow
      rw [ht] at hp
      simp only [hd] at hp
      cases hdec : L.G1.Decode byts with
      | none => rw [hdec] at hp; cases hp
      | some R =>
        rw [hdec] at hp
        simp only [Except.ok.injEq] at hp
        subst hp
        rw [encodeG1, hcanon byts R hlen hdec, EncodeToString_DecodeString trimmed byts hlow hd]
  · intro Q byts hp hd hlen hcanon
    unfold parseG2PointNoSubgroupCheck at hp
    cases ht : trim0xPrefix h with
    | error p => rw [ht] at hp; cases hp
    | ok trimmed =>
      have hh := (trim0xPrefix_ok_iff h trimmed).1 ht
      subst hh
      have hdrop : (lit "0x" ++ trimmed).drop 2 = trimmed := rfl
      rw [hdrop] at hd hlow
      rw [ht] at hp
      simp only [hd] at hp
      cases hdec : L.G2.Decode byts with
      | none => rw [hdec] at hp; cases hp
      | some R =>
        rw [hdec] at hp
        simp only [Except.ok.injEq] at hp
        subst hp
        rw [encodeG2, hcanon byts R hlen hdec, EncodeToString_DecodeString trimmed byts hlow hd]

/-- C7, witness: the G1 string and the G2 string of the point 10 of the small group, both
written by the code with the lower-case digit `a`, are re-encoded to themselves. -/
theorem string_round_trip_witness :
    (encodeG1 Z13.lib (10 : Fin 13) = Z13.hexG1 10 ∧
      parseG1PointNoSubgroupCheck Z13.lib (Z13.hexG1 10) = .ok (10 : Fin 13) ∧
      DecodeString ((Z13.hexG1 10).drop 2) = .ok (Z13.Bytes 47 10)) ∧
    (encodeG2 Z13.lib (10 : Fin 13) = Z13.hexG2 10 ∧
      parseG2PointNoSubgroupCheck Z13.lib (Z13.hexG2 10) = .ok (10 : Fin 13) ∧
      DecodeString ((Z13.hexG2 10).drop 2) = .ok (Z13.Bytes 95 10)) :=
  ⟨⟨(string_round_trip Z13.lib (Z13.hexG1 10) (by decide)).1 (10 : Fin 13) (Z13.Bytes 47 10)
      rfl rfl rfl (fun bs R hl hd => Z13.Bytes_Decode 47 bs R hl hd), rfl, rfl⟩,
    ⟨(string_round_trip Z13.lib (Z13.hexG2 10) (by decide)).2 (10 : Fin 13) (Z13.Bytes 95 10)
      rfl rfl rfl (fun bs R hl hd => Z13.Bytes_Decode 95 bs R hl hd), rfl, rfl⟩⟩

/-- C7, counterexample: the string `Z13.upperA` (`0x0A00...`, 48 bytes of hex) is accepted
by `parseG1PointNoSubgroupCheck` and decodes to the point 10, and re-encoding that point
gives `0x0a00...` with a lower-case `a`, a different string. -/
theorem string_round_trip_counterexample :
    parseG1PointNoSubgroupCheck Z13.lib Z13.upperA = .ok (10 : Fin 13) ∧
    (∃ byts, DecodeString (Z13.upperA.drop 2) = .ok byts ∧ byts.length = 48) ∧
    encodeG1 Z13.lib (10 : Fin 13) = lit "0x0a" ++ List.replicate 94 48 ∧
    encodeG1 Z13.lib (10 : Fin 13) ≠ Z13.upperA :=
  ⟨rfl, ⟨Z13.Bytes 47 10, rfl, rfl⟩, by decide, by decide⟩


/-- What a parser returns when the library decoder returns `d`. -/
theorem parseG1_encodeG1_eq (L : Library) (P : L.G1.Point) :
    parseG1PointNoSubgroupCheck L (encodeG1 L P) =
      match L.G1.Decode (L.G1.Bytes P) with
      | some R => .ok R
      | none => .error (.returned .decoder) := by
  simp only [parseG1PointNoSubgroupCheck, encodeG1, trim0xPrefix_append,
    DecodeString_EncodeToString _ (L.G1.Bytes_lt P)]
  cases L.G1.Decode (L.G1.Bytes P) <;> rfl

theorem parseG2_encodeG2_eq (L : Library) (Q : L.G2.Point) :
    parseG2PointNoSubgroupCheck L (encodeG2 L Q) =
      match L.G2.Decode (L.G2.Bytes Q) with
      | some R => .ok R
      | none => .error (.returned .decoder) := by
  simp only [parseG2PointNoSubgroupCheck, encodeG2, trim0xPrefix_append,
    DecodeString_EncodeToString _ (L.G2.Bytes_lt Q)]
  cases L.G2.Decode (L.G2.Bytes Q) <;> rfl

theorem parseG1_encodeG1_iff (L : Library) (P : L.G1.Point) :
    parseG1PointNoSubgroupCheck L (encodeG1 L P) = .ok P ↔
      L.G1.Decode (L.G1.Bytes P) = some P := by
  rw [parseG1_encodeG1_eq]
  cases L.G1.Decode (L.G1.Bytes P) <;> simp

theorem parseG2_encodeG2_iff (L : Library) (Q : L.G2.Point) :
    parseG2PointNoSubgroupCheck L (encodeG2 L Q) = .ok Q ↔
      L.G2.Decode (L.G2.Bytes Q) = some Q := by
  rw [parseG2_encodeG2_eq]
  cases L.G2.Decode (L.G2.Bytes Q) <;> simp

/-- C8, as amended: for every G1 point `P` and G2 point `Q` (the results of the scalar
multiplication and the point at infinity among them), on the string
`"0x" + hex.EncodeToString(P.Bytes())` the check of `trim0xPrefix` passes and hex decoding
returns exactly the 48 (resp. 96) bytes that were encoded, so the parser returns on it
exactly what the library decoder returns on `P.Bytes()`: the string is accepted and decodes
back to `P` if and only if the decoder reads `P.Bytes()` back as `P`. -/
theorem point_round_trip (L : Library) (P : L.G1.Point) (Q : L.G2.Point) :
    (trim0xPrefix (encodeG1 L P) = .ok (EncodeToString (L.G1.Bytes P)) ∧
      DecodeString (EncodeToString (L.G1.Bytes P)) = .ok (L.G1.Bytes P) ∧
      (L.G1.Bytes P).length = 48 ∧
      parseG1PointNoSubgroupCheck L (encodeG1 L P) =
        (match L.G1.Decode (L.G1.Bytes P) with
          | some R => .ok R
          | none => .error (.returned .decoder)) ∧
      (parseG1PointNoSubgroupCheck L (encodeG1 L P) = .ok P ↔
        L.G1.Decode (L.G1.Bytes P) = some P)) ∧
    (trim0xPrefix (encodeG2 L Q) = .ok (EncodeToString (L.G2.Bytes Q)) ∧
      DecodeString (EncodeToString (L.G2.Bytes Q)) = .ok (L.G2.Bytes Q) ∧
      (L.G2.Bytes Q).length = 96 ∧
      parseG2PointNoSubgroupCheck L (encodeG2 L Q) =
        (match L.G2.Decode (L.G2.Bytes Q) with
          | some R => .ok R
          | none => .error (.returned .decoder)) ∧
      (parseG2PointNoSubgroupCheck L (encodeG2 L Q) = .ok Q ↔
        L.G2.Decode (L.G2.Bytes Q) = some Q)) :=
  ⟨⟨trim0xPrefix_append _, DecodeString_EncodeToString _ (L.G1.Bytes_lt P),
      L.G1.Bytes_length P, parseG1_encodeG1_eq L P, parseG1_encodeG1_iff L P⟩,
    ⟨trim0xPrefix_append _, DecodeString_EncodeToString _ (L.G2.Bytes_lt Q),
      L.G2.Bytes_length Q, parseG2_encodeG2_eq L Q, parseG2_encodeG2_iff L Q⟩⟩

/-- C8, witness: the identity 0 of the small group as a G1 point and the point 12 as a G2
point are accepted and decode back to themselves. -/
theorem point_round_trip_witness :
    parseG1PointNoSubgroupCheck Z13.lib (encodeG1 Z13.lib (0 : Fin 13)) = .ok (0 : Fin 13) ∧
    parseG2PointNoSubgroupCheck Z13.lib (encodeG2 Z13.lib (12 : Fin 13)) = .ok (12 : Fin 13) :=
  ⟨(point_round_trip Z13.lib (0 : Fin 13) (12 : Fin 13)).1.2.2.2.2.2 (Z13.Decode_Bytes 47 0),
    (point_round_trip Z13.lib (0 : Fin 13) (12 : Fin 13)).2.2.2.2.2.2
      (Z13.Decode_Bytes 95 12)⟩

/-- C8, counterexample: over the group modulo 26 the transcript `Z26.offCurve` is valid,
its strings being the uncompressed form of the odd point 1. The call with secret 3 returns
and writes in slot 1 the string of the point `3 * 1`, produced by the scalar multiplication;
`parseG1PointNoSubgroupCheck` rejects that string, so it does not decode back to the
point. -/
theorem point_round_trip_counterexample :
    Valid Z26.lib Z26.offCurve ∧
    parseG1PointNoSubgroupCheck Z26.lib (Z26.rawG1 1) = .ok (1 : Fin 26) ∧
    Z26.lib.G1.ScalarMultiplication (1 : Fin 26) (3 ^ 1 % Modulus) = (3 : Fin 26) ∧
    UpdatePowerOfTau Z26.lib Z26.offCurve 3 = .returned
      { NumG1Powers := 2, NumG2Powers := 0,
        Powers := { G1Powers := [encodeG1 Z26.lib (1 : Fin 26), encodeG1 Z26.lib (3 : Fin 26)],
                    G2Powers := [] } } ∧
    parseG1PointNoSubgroupCheck Z26.lib (encodeG1 Z26.lib (3 : Fin 26)) =
      .error (.returned .decoder) ∧
    parseG1PointNoSubgroupCheck Z26.lib (encodeG1 Z26.lib (3 : Fin 26)) ≠ .ok (3 : Fin 26) :=
  ⟨by decide, rfl, rfl, by decide, rfl,
    fun h => Except.noConfusion
      ((rfl : parseG1PointNoSubgroupCheck Z26.lib (encodeG1 Z26.lib (3 : Fin 26)) =
        .error (.returned .decoder)).symm.trans h)⟩

/-- C9: for every list of strings that all decode, `ParseG1PointsNoSubgroupCheck` returns a
list of the same length whose `i`-th element is the point `parseG1PointNoSubgroupCheck`
returns on the `i`-th string, for every `i`; the same holds for
`ParseG2PointsNoSubgroupCheck`; on the empty list both return the empty list. -/
theorem batch_decode_elementwise (L : Library) (hs1 hs2 : List GoString)
    (h1 : ∀ h ∈ hs1, decodesG1 L h = true) (h2 : ∀ h ∈ hs2, decodesG2 L h = true) :
    (∃ ps, ParseG1PointsNoSubgroupCheck L hs1 = .ok ps ∧ ps.length = hs1.length ∧
      ∀ (i : Nat) (h : GoString), hs1[i]? = some h →
        ∃ P, ps[i]? = some P ∧ parseG1PointNoSubgroupCheck L h = .ok P) ∧
    (∃ qs, ParseG2PointsNoSubgroupCheck L hs2 = .ok qs ∧ qs.length = hs2.length ∧
      ∀ (i : Nat) (h : GoString), hs2[i]? = some h →
        ∃ Q, qs[i]? = some Q ∧ parseG2PointNoSubgroupCheck L h = .ok Q) ∧
    ParseG1PointsNoSubgroupCheck L [] = .ok [] ∧
    ParseG2PointsNoSubgroupCheck L [] = .ok [] := by
  obtain ⟨ps, hps⟩ := (ParseG1Points_isOk_iff L hs1).2 h1
  obtain ⟨qs, hqs⟩ := (ParseG2Points_isOk_iff L hs2).2 h2
  exact ⟨⟨ps, hps, ParseG1Points_ok L hs1 ps hps⟩, ⟨qs, hqs, ParseG2Points_ok L hs2 qs hqs⟩,
    rfl, rfl⟩

/-- C9, witness: three G1 strings and two G2 strings of the small group are parsed to the
points they encode, in the order of the input; the theorem applies to them. -/
theorem batch_decode_elementwise_witness :
    (ParseG1PointsNoSubgroupCheck Z13.lib [Z13.hexG1 3, Z13.hexG1 1, Z13.hexG1 2] =
        .ok ([3, 1, 2] : List (Fin 13)) ∧
      ParseG2PointsNoSubgroupCheck Z13.lib [Z13.hexG2 5, Z13.hexG2 4] =
        .ok ([5, 4] : List (Fin 13))) ∧
    ((∃ ps, ParseG1PointsNoSubgroupCheck Z13.lib [Z13.hexG1 3, Z13.hexG1 1, Z13.hexG1 2] =
        .ok ps ∧ ps.length = [Z13.hexG1 3, Z13.hexG1 1, Z13.hexG1 2].length ∧
      ∀ (i : Nat) (h : GoString), [Z13.hexG1 3, Z13.hexG1 1, Z13.hexG1 2][i]? = some h →
        ∃ P, ps[i]? = some P ∧ parseG1PointNoSubgroupCheck Z13.lib h = .ok P) ∧
    (∃ qs, ParseG2PointsNoSubgroupCheck Z13.lib [Z13.hexG2 5, Z13.hexG2 4] = .ok qs ∧
      qs.length = [Z13.hexG2 5, Z13.hexG2 4].length ∧
      ∀ (i : Nat) (h : GoString), [Z13.hexG2 5, Z13.hexG2 4][i]? = some h →
        ∃ Q, qs[i]? = some Q ∧ parseG2PointNoSubgroupCheck Z13.lib h = .ok Q) ∧
    ParseG1PointsNoSubgroupCheck Z13.lib [] = .ok [] ∧
    ParseG2PointsNoSubgroupCheck Z13.lib [] = .ok []) :=
  ⟨⟨rfl, rfl⟩,
    batch_decode_elementwise Z13.lib [Z13.hexG1 3, Z13.hexG1 1, Z13.hexG1 2]
      [Z13.hexG2 5, Z13.hexG2 4] (by decide) (by decide)⟩

/-- C10: when at least one string of `G1Powers` or of `G2Powers` fails to decode, at any
index of the sequence (indices at or beyond the counts included), the batch parser of that
sequence panics instead of returning a result, and `UpdatePowerOfTau` panics with the
transcript exactly as it was before the call: no slot has been overwritten. -/
theorem decoding_failure_fatal (L : Library) (t : Transcript) (x : Int) :
    ((∃ s ∈ t.Powers.G1Powers, decodesG1 L s = false) →
      (∃ p, ParseG1PointsNoSubgroupCheck L t.Powers.G1Powers = .error p) ∧
      ∃ p, UpdatePowerOfTau L t x = .panicked p t) ∧
    ((∃ s ∈ t.Powers.G2Powers, decodesG2 L s = false) →
      (∃ p, ParseG2PointsNoSubgroupCheck L t.Powers.G2Powers = .error p) ∧
      ∃ p, UpdatePowerOfTau L t x = .panicked p t) := by
  constructor
  · intro h
    obtain ⟨p, hp⟩ := ParseG1Points_error L _ h
    exact ⟨⟨p, hp⟩, ⟨p, by simp only [UpdatePowerOfTau, hp]⟩⟩
  · intro h
    obtain ⟨p, hp⟩ := ParseG2Points_error L _ h
    refine ⟨⟨p, hp⟩, ?_⟩
    cases hp1 : ParseG1PointsNoSubgroupCheck L t.Powers.G1Powers with
    | error p1 => exact ⟨p1, by simp only [UpdatePowerOfTau, hp1]⟩
    | ok G1Points => exact ⟨p, by simp only [UpdatePowerOfTau, hp1, hp]⟩

/-- C10, witness: in `Z13.corrupt` the string `0xzz` stands at index 1 of `G1Powers`, beyond
`NumG1Powers = 1`; the batch parser and the call panic, the transcript is unchanged. A
transcript with a G2 string of odd length behaves the same. -/
theorem decoding_failure_fatal_witness :
    ((∃ p, ParseG1PointsNoSubgroupCheck Z13.lib Z13.corrupt.Powers.G1Powers = .error p) ∧
      ∃ p, UpdatePowerOfTau Z13.lib Z13.corrupt 5 = .panicked p Z13.corrupt) ∧
    ((∃ p, ParseG2PointsNoSubgroupCheck Z13.lib
        ({ NumG1Powers := 1, NumG2Powers := 0,
           Powers := { G1Powers := [Z13.hexG1 1], G2Powers := [lit "0x0"] } } :
          Transcript).Powers.G2Powers = .error p) ∧
      ∃ p, UpdatePowerOfTau Z13.lib
        { NumG1Powers := 1, NumG2Powers := 0,
          Powers := { G1Powers := [Z13.hexG1 1], G2Powers := [lit "0x0"] } } 5 =
        .panicked p
          { NumG1Powers := 1, NumG2Powers := 0,
            Powers := { G1Powers := [Z13.hexG1 1], G2Powers := [lit "0x0"] } }) :=
  ⟨(decoding_failure_fatal Z13.lib Z13.corrupt 5).1 ⟨lit "0xzz", by decide, by decide⟩,
    (decoding_failure_fatal Z13.lib
      { NumG1Powers := 1, NumG2Powers := 0,
        Powers := { G1Powers := [Z13.hexG1 1], G2Powers := [lit "0x0"] } } 5).2
      ⟨lit "0x0", by decide, by decide⟩⟩


theorem Z13.smul_zero : ∀ p : Fin 13, Z13.ScalarMultiplication p 0 = 0 := by decide

theorem Z13.smul_one : ∀ p : Fin 13, Z13.ScalarMultiplication p 1 = p := by decide

/-! ## Further facts used by the later claims -/

theorem EncodeToString_length (src : List Nat) :
    (EncodeToString src).length = 2 * src.length := by
  induction src with
  | nil => rfl
  | cons v src ih => simp only [EncodeToString, List.length_cons, ih]; omega

theorem encode_byte_lower : ∀ v, v < 256 →
    isLowerHex (hextable.getD (v >>> 4) 0) = true ∧
    isLowerHex (hextable.getD (v &&& 0x0f) 0) = true := by
  decide

theorem EncodeToString_lower (src : List Nat) (h : ∀ b ∈ src, b < 256) :
    ∀ c ∈ EncodeToString src, isLowerHex c = true := by
  induction src with
  | nil => intro c hc; simp [EncodeToString] at hc
  | cons v src ih =>
    intro c hc
    obtain ⟨h1, h2⟩ := encode_byte_lower v (h v (List.mem_cons_self _ _))
    simp only [EncodeToString, List.mem_cons] at hc
    rcases hc with rfl | rfl | hc
    · exact h1
    · exact h2
    · exact ih (fun b hb => h b (List.mem_cons_of_mem _ hb)) c hc

/-- The loop body depends on the secret only through its remainder modulo `r`. -/
theorem loopBody_congr (L : Library) (x y : Int) (h : x % Modulus = y % Modulus)
    (s : LoopState L) : loopBody L x s = loopBody L y s := by
  have hx : (s.xPower * x) % Modulus = (s.xPower * y) % Modulus := by
    rw [Int.mul_emod s.xPower x, Int.mul_emod s.xPower y, h]
  simp only [loopBody, hx]

theorem runLoop_congr (L : Library) (x y : Int) (h : x % Modulus = y % Modulus) (n : Nat) :
    ∀ s : LoopState L, runLoop L x n s = runLoop L y n s := by
  induction n with
  | zero => intro s; rfl
  | succ n ih =>
    intro s
    simp only [runLoop, loopBody_congr L x y h s]
    cases loopBody L y s with
    | error e => rfl
    | ok s1 => exact ih s1

theorem pow_emod_congr (x y : Int) (h : x % Modulus = y % Modulus) (i : Nat) :
    x ^ i % Modulus = y ^ i % Modulus :=
  Int.ModEq.pow i h

/-- C11: for every secret `x` (zero, negative and `>= r` included) and every valid
transcript, whether or not the two counts are equal, both sequences parse and the call
returns without a panic: every index below `NumG1Powers` is inside the decoded G1 slice and
`G1Powers`, and when it is also below `NumG2Powers` it is inside the decoded G2 slice and
`G2Powers`. -/
theorem no_failure (L : Library) (t : Transcript) (x : Int) (hv : Valid L t) :
    ∃ G1Points G2Points t1,
      ParseG1PointsNoSubgroupCheck L t.Powers.G1Powers = .ok G1Points ∧
      ParseG2PointsNoSubgroupCheck L t.Powers.G2Powers = .ok G2Points ∧
      UpdatePowerOfTau L t x = .returned t1 ∧
      (∀ p t2, UpdatePowerOfTau L t x ≠ .panicked p t2) ∧
      ∀ i : Nat, (i : Int) < t.NumG1Powers →
        i < G1Points.length ∧ i < t.Powers.G1Powers.length ∧
        ((i : Int) < t.NumG2Powers →
          i < G2Points.length ∧ i < t.Powers.G2Powers.length) := by
  obtain ⟨G1Points, G2Points, t1, hp1, hp2, hr, _⟩ := UpdatePowerOfTau_valid L t x hv
  obtain ⟨hn1, hn2, _, _⟩ := hv
  have hl1 := (ParseG1Points_ok L _ _ hp1).1
  have hl2 := (ParseG2Points_ok L _ _ hp2).1
  refine ⟨G1Points, G2Points, t1, hp1, hp2, hr, ?_, ?_⟩
  · intro p t2 h
    rw [hr] at h
    cases h
  · intro i hi
    exact ⟨by omega, by omega, fun hi2 => ⟨by omega, by omega⟩⟩

/-- C11, witness: on `Z13.uneven` (`NumG1Powers = 3`, `NumG2Powers = 1`) the call returns
with secret 0, with the negative secret `-7` and with the secret `r + 2`; the theorem
applies to it. -/
theorem no_failure_witness :
    (∃ t1, UpdatePowerOfTau Z13.lib Z13.uneven 0 = .returned t1) ∧
    (∃ t1, UpdatePowerOfTau Z13.lib Z13.uneven (-7) = .returned t1) ∧
    (∃ t1, UpdatePowerOfTau Z13.lib Z13.uneven (Modulus + 2) = .returned t1) :=
  ⟨(no_failure Z13.lib Z13.uneven 0 (by decide)).elim
      (fun _ h => h.elim (fun _ h1 => h1.elim (fun t1 h2 => ⟨t1, h2.2.2.1⟩))),
    (no_failure Z13.lib Z13.uneven (-7) (by decide)).elim
      (fun _ h => h.elim (fun _ h1 => h1.elim (fun t1 h2 => ⟨t1, h2.2.2.1⟩))),
    (no_failure Z13.lib Z13.uneven (Modulus + 2) (by decide)).elim
      (fun _ h => h.elim (fun _ h1 => h1.elim (fun t1 h2 => ⟨t1, h2.2.2.1⟩)))⟩

/-- C14: for every transcript and all integers `x`, `y` congruent modulo `r`,
`UpdatePowerOfTau` with `x` and with `y` end in the same way with identical transcripts; the
scalar applied at index `i` is `x ^ i mod r = y ^ i mod r`, which is 1 at index 0. -/
theorem secret_modulo_order (L : Library) (t : Transcript) (x y : Int)
    (h : x % Modulus = y % Modulus) :
    UpdatePowerOfTau L t x = UpdatePowerOfTau L t y ∧
    (∀ i : Nat, x ^ i % Modulus = y ^ i % Modulus) ∧
    x ^ 0 % Modulus = 1 := by
  refine ⟨?_, pow_emod_congr x y h, by rw [pow_zero]; decide⟩
  unfold UpdatePowerOfTau
  cases ParseG1PointsNoSubgroupCheck L t.Powers.G1Powers with
  | error p => rfl
  | ok G1Points =>
    cases ParseG2PointsNoSubgroupCheck L t.Powers.G2Powers with
    | error p => rfl
    | ok G2Points => simp only [runLoop_congr L x y h]

/-- C14, witness: on the scenario transcript the secrets 5 and `5 + r` give the same
result, `[P0, 5 * P1, 25 * P2, 125 * P3]` and `[Q0, 5 * Q1]`. -/
theorem secret_modulo_order_witness :
    UpdatePowerOfTau Z13.lib Z13.scenario 5 =
      UpdatePowerOfTau Z13.lib Z13.scenario (5 + Modulus) ∧
    UpdatePowerOfTau Z13.lib Z13.scenario (5 + Modulus) = .returned
      { NumG1Powers := 4, NumG2Powers := 2,
        Powers := { G1Powers := [Z13.hexG1 1, Z13.hexG1 (5 * 2), Z13.hexG1 (25 * 3),
                                 Z13.hexG1 (125 * 4)],
                    G2Powers := [Z13.hexG2 1, Z13.hexG2 (5 * 2)] } } :=
  ⟨(secret_modulo_order Z13.lib Z13.scenario 5 (5 + Modulus) (by decide)).1, by decide⟩


/-- The string the code stores for a G1 point: `0x`, then 96 lower-case hex digits that
decode to the 48 bytes of the point. -/
theorem encodeG1_shape (L : Library) (P : L.G1.Point) :
    ∃ body, encodeG1 L P = lit "0x" ++ body ∧ body.length = 96 ∧
      (∀ c ∈ body, isLowerHex c = true) ∧
      ∃ byts, DecodeString body = .ok byts ∧ byts.length = 48 :=
  ⟨EncodeToString (L.G1.Bytes P), rfl,
    by rw [EncodeToString_length, L.G1.Bytes_length],
    EncodeToString_lower _ (L.G1.Bytes_lt P),
    L.G1.Bytes P, DecodeString_EncodeToString _ (L.G1.Bytes_lt P), L.G1.Bytes_length P⟩

/-- The string the code stores for a G2 point: `0x`, then 192 lower-case hex digits that
decode to the 96 bytes of the point. -/
theorem encodeG2_shape (L : Library) (Q : L.G2.Point) :
    ∃ body, encodeG2 L Q = lit "0x" ++ body ∧ body.length = 192 ∧
      (∀ c ∈ body, isLowerHex c = true) ∧
      ∃ byts, DecodeString body = .ok byts ∧ byts.length = 96 :=
  ⟨EncodeToString (L.G2.Bytes Q), rfl,
    by rw [EncodeToString_length, L.G2.Bytes_length],
    EncodeToString_lower _ (L.G2.Bytes_lt Q),
    L.G2.Bytes Q, DecodeString_EncodeToString _ (L.G2.Bytes_lt Q), L.G2.Bytes_length Q⟩

/-- C15: for every secret `x` and every valid transcript the call returns, and every
overwritten slot of `G1Powers` (index below `NumG1Powers`) is `0x` followed by exactly 96
lower-case hex characters, which decode to 48 bytes; every overwritten slot of `G2Powers`
(index below both counts) is `0x` followed by exactly 192 lower-case hex characters, which
decode to 96 bytes. -/
theorem slots_keep_hex_shape (L : Library) (t : Transcript) (x : Int) (hv : Valid L t) :
    ∃ t1, UpdatePowerOfTau L t x = .returned t1 ∧
      (∀ i : Nat, (i : Int) < t.NumG1Powers →
        ∃ body, t1.Powers.G1Powers[i]? = some (lit "0x" ++ body) ∧ body.length = 96 ∧
          (∀ c ∈ body, isLowerHex c = true) ∧
          ∃ byts, DecodeString body = .ok byts ∧ byts.length = 48) ∧
      (∀ i : Nat, (i : Int) < t.NumG1Powers → (i : Int) < t.NumG2Powers →
        ∃ body, t1.Powers.G2Powers[i]? = some (lit "0x" ++ body) ∧ body.length = 192 ∧
          (∀ c ∈ body, isLowerHex c = true) ∧
          ∃ byts, DecodeString body = .ok byts ∧ byts.length = 96) := by
  obtain ⟨G1Points, G2Points, t1, hp1, hp2, hr, _, _, _, _, hf1, hf2⟩ :=
    UpdatePowerOfTau_valid L t x hv
  obtain ⟨hn1, hn2, _, _⟩ := hv
  refine ⟨t1, hr, ?_, ?_⟩
  · intro i hi
    have hlt : i < t.Powers.G1Powers.length := by omega
    obtain ⟨P, hP, _⟩ := (ParseG1Points_ok L _ _ hp1).2 i _ (List.getElem?_eq_getElem hlt)
    have hslot := hf1 i
    simp only [hi, if_true, hP, Option.map_some'] at hslot
    obtain ⟨body, hb, hrest⟩ :=
      encodeG1_shape L (L.G1.ScalarMultiplication P (x ^ i % Modulus))
    exact ⟨body, by rw [hslot, hb], hrest⟩
  · intro i hi hi2
    have hlt : i < t.Powers.G2Powers.length := by omega
    obtain ⟨Q, hQ, _⟩ := (ParseG2Points_ok L _ _ hp2).2 i _ (List.getElem?_eq_getElem hlt)
    have hslot := hf2 i
    simp only [hi, hi2, and_self, if_true, hQ, Option.map_some'] at hslot
    obtain ⟨body, hb, hrest⟩ :=
      encodeG2_shape L (L.G2.ScalarMultiplication Q (x ^ i % Modulus))
    exact ⟨body, by rw [hslot, hb], hrest⟩

/-- C15, witness: the theorem at the scenario transcript with secret 5. -/
theorem slots_keep_hex_shape_witness :
    ∃ t1, UpdatePowerOfTau Z13.lib Z13.scenario 5 = .returned t1 ∧
      (∀ i : Nat, (i : Int) < Z13.scenario.NumG1Powers →
        ∃ body, t1.Powers.G1Powers[i]? = some (lit "0x" ++ body) ∧ body.length = 96 ∧
          (∀ c ∈ body, isLowerHex c = true) ∧
          ∃ byts, DecodeString body = .ok byts ∧ byts.length = 48) ∧
      (∀ i : Nat, (i : Int) < Z13.scenario.NumG1Powers →
        (i : Int) < Z13.scenario.NumG2Powers →
        ∃ body, t1.Powers.G2Powers[i]? = some (lit "0x" ++ body) ∧ body.length = 192 ∧
          (∀ c ∈ body, isLowerHex c = true) ∧
          ∃ byts, DecodeString body = .ok byts ∧ byts.length = 96) :=
  slots_keep_hex_shape Z13.lib Z13.scenario 5 (by decide)

theorem zero_pow_emod (i : Nat) (hi : 1 ≤ i) : (0 : Int) ^ i % Modulus = 0 := by
  rw [zero_pow (by omega), Int.zero_emod]

/-- C12: for every valid transcript the call with secret 0 returns (nothing rejects the
zero scalar). Over a library in which multiplying by 0 gives the identity `O` and
multiplying by 1 gives the point itself, every updated slot at an index `i >= 1`
(`G1Powers[i]` for `1 <= i < NumG1Powers`, `G2Powers[i]` for `1 <= i` below both counts)
holds the encoding of the identity, and the slots at index 0 hold the encoding of the
original points. -/
theorem zero_scalar (L : Library) (t : Transcript) (O1 : L.G1.Point) (O2 : L.G2.Point)
    (hv : Valid L t)
    (h01 : ∀ P, L.G1.ScalarMultiplication P 0 = O1)
    (h02 : ∀ Q, L.G2.ScalarMultiplication Q 0 = O2)
    (h11 : ∀ P, L.G1.ScalarMultiplication P 1 = P)
    (h12 : ∀ Q, L.G2.ScalarMultiplication Q 1 = Q) :
    ∃ t1, UpdatePowerOfTau L t 0 = .returned t1 ∧
      (∀ i : Nat, 1 ≤ i → (i : Int) < t.NumG1Powers →
        t1.Powers.G1Powers[i]? = some (encodeG1 L O1)) ∧
      (∀ i : Nat, 1 ≤ i → (i : Int) < t.NumG1Powers → (i : Int) < t.NumG2Powers →
        t1.Powers.G2Powers[i]? = some (encodeG2 L O2)) ∧
      (0 < t.NumG1Powers →
        ∃ h P, t.Powers.G1Powers[0]? = some h ∧ parseG1PointNoSubgroupCheck L h = .ok P ∧
          t1.Powers.G1Powers[0]? = some (encodeG1 L P)) ∧
      (0 < t.NumG1Powers → 0 < t.NumG2Powers →
        ∃ h Q, t.Powers.G2Powers[0]? = some h ∧ parseG2PointNoSubgroupCheck L h = .ok Q ∧
          t1.Powers.G2Powers[0]? = some (encodeG2 L Q)) := by
  obtain ⟨G1Points, G2Points, t1, hp1, hp2, hr, _, _, _, _, hf1, hf2⟩ :=
    UpdatePowerOfTau_valid L t 0 hv
  obtain ⟨hn1, hn2, _, _⟩ := hv
  have hone : (0 : Int) ^ 0 % Modulus = 1 := by rw [pow_zero]; decide
  refine ⟨t1, hr, ?_, ?_, ?_, ?_⟩
  · intro i hi1 hi
    have hlt : i < t.Powers.G1Powers.length := by omega
    obtain ⟨P, hP, _⟩ := (ParseG1Points_ok L _ _ hp1).2 i _ (List.getElem?_eq_getElem hlt)
    have hslot := hf1 i
    simp only [hi, if_true, hP, Option.map_some', zero_pow_emod i hi1, h01] at hslot
    exact hslot
  · intro i hi1 hi hi2
    have hlt : i < t.Powers.G2Powers.length := by omega
    obtain ⟨Q, hQ, _⟩ := (ParseG2Points_ok L _ _ hp2).2 i _ (List.getElem?_eq_getElem hlt)
    have hslot := hf2 i
    simp only [hi, hi2, and_self, if_true, hQ, Option.map_some', zero_pow_emod i hi1,
      h02] at hslot
    exact hslot
  · intro hi
    have hlt : 0 < t.Powers.G1Powers.length := by omega
    obtain ⟨P, hP, hparse⟩ :=
      (ParseG1Points_ok L _ _ hp1).2 0 _ (List.getElem?_eq_getElem hlt)
    have hslot := hf1 0
    have hi0 : ((0 : Nat) : Int) < t.NumG1Powers := by simpa using hi
    simp only [hi0, if_true, hP, Option.map_some', hone, h11] at hslot
    exact ⟨_, P, List.getElem?_eq_getElem hlt, hparse, hslot⟩
  · intro hi hi2
    have hlt : 0 < t.Powers.G2Powers.length := by omega
    obtain ⟨Q, hQ, hparse⟩ :=
      (ParseG2Points_ok L _ _ hp2).2 0 _ (List.getElem?_eq_getElem hlt)
    have hslot := hf2 0
    have hi0 : ((0 : Nat) : Int) < t.NumG1Powers := by simpa using hi
    have hi20 : ((0 : Nat) : Int) < t.NumG2Powers := by simpa using hi2
    simp only [hi0, hi20, and_self, if_true, hQ, Option.map_some', hone, h12] at hslot
    exact ⟨_, Q, List.getElem?_eq_getElem hlt, hparse, hslot⟩

/-- C12, witness: on the scenario transcript the secret 0 gives `[P0, O, O, O]` and
`[Q0, O]`, `O` the point 0 of the small group; the theorem applies to it. -/
theorem zero_scalar_witness :
    UpdatePowerOfTau Z13.lib Z13.scenario 0 = .returned
      { NumG1Powers := 4, NumG2Powers := 2,
        Powers := { G1Powers := [Z13.hexG1 1, Z13.hexG1 0, Z13.hexG1 0, Z13.hexG1 0],
                    G2Powers := [Z13.hexG2 1, Z13.hexG2 0] } } ∧
    ∃ t1, UpdatePowerOfTau Z13.lib Z13.scenario 0 = .returned t1 ∧
      (∀ i : Nat, 1 ≤ i → (i : Int) < Z13.scenario.NumG1Powers →
        t1.Powers.G1Powers[i]? = some (encodeG1 Z13.lib (0 : Fin 13))) ∧
      (∀ i : Nat, 1 ≤ i → (i : Int) < Z13.scenario.NumG1Powers →
        (i : Int) < Z13.scenario.NumG2Powers →
        t1.Powers.G2Powers[i]? = some (encodeG2 Z13.lib (0 : Fin 13))) ∧
      (0 < Z13.scenario.NumG1Powers →
        ∃ h P, Z13.scenario.Powers.G1Powers[0]? = some h ∧
          parseG1PointNoSubgroupCheck Z13.lib h = .ok P ∧
          t1.Powers.G1Powers[0]? = some (encodeG1 Z13.lib P)) ∧
      (0 < Z13.scenario.NumG1Powers → 0 < Z13.scenario.NumG2Powers →
        ∃ h Q, Z13.scenario.Powers.G2Powers[0]? = some h ∧
          parseG2PointNoSubgroupCheck Z13.lib h = .ok Q ∧
          t1.Powers.G2Powers[0]? = some (encodeG2 Z13.lib Q)) :=
  ⟨by decide,
    zero_scalar Z13.lib Z13.scenario (0 : Fin 13) (0 : Fin 13) (by decide)
      Z13.smul_zero Z13.smul_zero Z13.smul_one Z13.smul_one⟩


theorem Transcript.eq_of_fields (a b : Transcript)
    (h1 : a.NumG1Powers = b.NumG1Powers) (h2 : a.NumG2Powers = b.NumG2Powers)
    (h3 : a.Powers.G1Powers = b.Powers.G1Powers)
    (h4 : a.Powers.G2Powers = b.Powers.G2Powers) : a = b := by
  obtain ⟨n1, n2, ⟨g1, g2⟩⟩ := a
  obtain ⟨m1, m2, ⟨k1, k2⟩⟩ := b
  simp only at h1 h2 h3 h4
  subst h1 h2 h3 h4
  rfl

theorem loopBody_G1Points_length (L : Library) (x : Int) (s s1 : LoopState L)
    (h : loopBody L x s = .ok s1) : s1.G1Points.length = s.G1Points.length := by
  unfold loopBody at h
  split at h
  · cases h
  · simp only at h
    split_ifs at h <;> (try split at h) <;> cases h <;> simp

theorem runLoop_G1Points_length (L : Library) (x : Int) (n : Nat) :
    ∀ s s1 : LoopState L, runLoop L x n s = .ok s1 →
      s1.G1Points.length = s.G1Points.length := by
  induction n with
  | zero =>
    intro s s1 h
    simp only [runLoop, Except.ok.injEq] at h
    subst h
    rfl
  | succ n ih =>
    intro s s1 h
    unfold runLoop at h
    cases hb : loopBody L x s with
    | error e => rw [hb] at h; cases h
    | ok s2 =>
      rw [hb] at h
      rw [ih s2 s1 h, loopBody_G1Points_length L x s s2 hb]

/-- Running `a + b` passes is running `a` passes and then `b` more. -/
theorem runLoop_add (L : Library) (x : Int) (a b : Nat) : ∀ s : LoopState L,
    runLoop L x (a + b) s =
      match runLoop L x a s with
      | .error e => .error e
      | .ok s1 => runLoop L x b s1 := by
  induction a with
  | zero => intro s; simp only [Nat.zero_add, runLoop]
  | succ a ih =>
    intro s
    rw [Nat.succ_add]
    simp only [runLoop]
    cases loopBody L x s with
    | error e => rfl
    | ok s1 => exact ih s1

/-- C16, as amended: for every transcript whose strings all decode, with
`NumG1Powers > len(G1Powers)`, `len(G1Powers) >= 1` and with the G2 indices visited below
`len(G1Powers)` inside `G2Powers`, the loop makes `len(G1Powers)` passes, the next pass, at
`i = len(G1Powers)`, panics with an index out of range, and `UpdatePowerOfTau` panics with
the transcript left as those passes wrote it: every slot of `G1Powers` and every slot of
`G2Powers` below `len(G1Powers)` and `NumG2Powers` overwritten (slot 0 with the scalar 1),
the counts, the lengths and the other slots as before. The transcript left behind differs
from the one before the call exactly when one of the overwritten slots holds a string
different from the one it held. -/
theorem overcount_fails_late (L : Library) (t : Transcript) (x : Int)
    (hd1 : ∀ h ∈ t.Powers.G1Powers, decodesG1 L h = true)
    (hd2 : ∀ h ∈ t.Powers.G2Powers, decodesG2 L h = true)
    (hover : (t.Powers.G1Powers.length : Int) < t.NumG1Powers)
    (hpos : 1 ≤ t.Powers.G1Powers.length)
    (hg2 : ∀ j : Nat, j < t.Powers.G1Powers.length → (j : Int) < t.NumG2Powers →
      j < t.Powers.G2Powers.length) :
    ∃ G1Points G2Points s1,
      ParseG1PointsNoSubgroupCheck L t.Powers.G1Powers = .ok G1Points ∧
      ParseG2PointsNoSubgroupCheck L t.Powers.G2Powers = .ok G2Points ∧
      runLoop L x t.Powers.G1Powers.length
        { i := 0, xPower := 1, G1Points := G1Points, G2Points := G2Points, t := t } =
        .ok s1 ∧
      s1.i = t.Powers.G1Powers.length ∧
      loopBody L x s1 = .error (.indexOutOfRange, s1.t) ∧
      UpdatePowerOfTau L t x = .panicked .indexOutOfRange s1.t ∧
      s1.t.NumG1Powers = t.NumG1Powers ∧ s1.t.NumG2Powers = t.NumG2Powers ∧
      (∀ j : Nat, j < t.Powers.G1Powers.length →
        ∃ h P, t.Powers.G1Powers[j]? = some h ∧ parseG1PointNoSubgroupCheck L h = .ok P ∧
          s1.t.Powers.G1Powers[j]? =
            some (encodeG1 L (L.G1.ScalarMultiplication P (x ^ j % Modulus)))) ∧
      (∀ j : Nat, j < t.Powers.G1Powers.length → (j : Int) < t.NumG2Powers →
        ∃ h Q, t.Powers.G2Powers[j]? = some h ∧ parseG2PointNoSubgroupCheck L h = .ok Q ∧
          s1.t.Powers.G2Powers[j]? =
            some (encodeG2 L (L.G2.ScalarMultiplication Q (x ^ j % Modulus)))) ∧
      (∀ j : Nat, (t.Powers.G1Powers.length ≤ j ∨ t.NumG2Powers ≤ (j : Int)) →
        s1.t.Powers.G2Powers[j]? = t.Powers.G2Powers[j]?) ∧
      s1.t.Powers.G1Powers.length = t.Powers.G1Powers.length ∧
      s1.t.Powers.G2Powers.length = t.Powers.G2Powers.length ∧
      (∃ h P, t.Powers.G1Powers[0]? = some h ∧ parseG1PointNoSubgroupCheck L h = .ok P ∧
        s1.t.Powers.G1Powers[0]? = some (encodeG1 L (L.G1.ScalarMultiplication P 1))) ∧
      (s1.t ≠ t ↔
        (∃ j : Nat, j < t.Powers.G1Powers.length ∧
          s1.t.Powers.G1Powers[j]? ≠ t.Powers.G1Powers[j]?) ∨
        (∃ j : Nat, j < t.Powers.G1Powers.length ∧ (j : Int) < t.NumG2Powers ∧
          s1.t.Powers.G2Powers[j]? ≠ t.Powers.G2Powers[j]?)) := by
  obtain ⟨G1Points, hp1⟩ := (ParseG1Points_isOk_iff L _).2 hd1
  obtain ⟨G2Points, hp2⟩ := (ParseG2Points_isOk_iff L _).2 hd2
  have hl1 := (ParseG1Points_ok L _ _ hp1).1
  have hl2 := (ParseG2Points_ok L _ _ hp2).1
  obtain ⟨s1, hr, hi, _, hc1, hc2, hk1, hk2, hf1, hf2⟩ :=
    runLoop_ok L x t.Powers.G1Powers.length
      { i := 0, xPower := 1, G1Points := G1Points, G2Points := G2Points, t := t }
      hl1 hl2 (by simp only [hl1]; omega)
      (fun j _ hj hj2 => by
        simp only [hl2]
        exact hg2 j (by simp only at hj; omega) hj2)
      (by show (1 : Int) = x ^ 0 % Modulus; rw [pow_zero]; decide)
  simp only [Nat.zero_add] at hi hf1 hf2
  simp only at hc1 hc2 hk1 hk2
  -- the decoded slice is not changed in length by the passes, so the next index is outside
  have hpts : s1.G1Points.length = t.Powers.G1Powers.length := by
    have := runLoop_G1Points_length L x t.Powers.G1Powers.length
      { i := 0, xPower := 1, G1Points := G1Points, G2Points := G2Points, t := t } s1 hr
    simp only at this
    omega
  have hnone : s1.G1Points[s1.i]? = none := by
    rw [List.getElem?_eq_none_iff]
    omega
  have hbody : loopBody L x s1 = .error (.indexOutOfRange, s1.t) := by
    simp only [loopBody, hnone]
  obtain ⟨k, hk⟩ : ∃ k : Nat, t.NumG1Powers.toNat = t.Powers.G1Powers.length + (k + 1) :=
    ⟨t.NumG1Powers.toNat - t.Powers.G1Powers.length - 1, by omega⟩
  have hcall : UpdatePowerOfTau L t x = .panicked .indexOutOfRange s1.t := by
    simp only [UpdatePowerOfTau, hp1, hp2, hk, runLoop_add, hr, runLoop, hbody]
  have hs1 : ∀ j : Nat, j < t.Powers.G1Powers.length →
      ∃ h P, t.Powers.G1Powers[j]? = some h ∧ parseG1PointNoSubgroupCheck L h = .ok P ∧
        s1.t.Powers.G1Powers[j]? =
          some (encodeG1 L (L.G1.ScalarMultiplication P (x ^ j % Modulus))) := by
    intro j hj
    obtain ⟨P, hP, hparse⟩ :=
      (ParseG1Points_ok L _ _ hp1).2 j _ (List.getElem?_eq_getElem hj)
    have hslot := hf1 j
    simp only [Nat.zero_le, hj, and_self, if_true, hP, Option.map_some'] at hslot
    exact ⟨_, P, List.getElem?_eq_getElem hj, hparse, hslot⟩
  have hs2 : ∀ j : Nat, j < t.Powers.G1Powers.length → (j : Int) < t.NumG2Powers →
      ∃ h Q, t.Powers.G2Powers[j]? = some h ∧ parseG2PointNoSubgroupCheck L h = .ok Q ∧
        s1.t.Powers.G2Powers[j]? =
          some (encodeG2 L (L.G2.ScalarMultiplication Q (x ^ j % Modulus))) := by
    intro j hj hj2
    have hlt := hg2 j hj hj2
    obtain ⟨Q, hQ, hparse⟩ :=
      (ParseG2Points_ok L _ _ hp2).2 j _ (List.getElem?_eq_getElem hlt)
    have hslot := hf2 j
    simp only [Nat.zero_le, hj, hj2, and_self, if_true, hQ, Option.map_some'] at hslot
    exact ⟨_, Q, List.getElem?_eq_getElem hlt, hparse, hslot⟩
  have hframe : ∀ j : Nat, (t.Powers.G1Powers.length ≤ j ∨ t.NumG2Powers ≤ (j : Int)) →
      s1.t.Powers.G2Powers[j]? = t.Powers.G2Powers[j]? := by
    intro j hj
    have hslot := hf2 j
    have hneg : ¬ (0 ≤ j ∧ j < t.Powers.G1Powers.length ∧ (j : Int) < t.NumG2Powers) := by
      omega
    simp only [hneg, if_false] at hslot
    exact hslot
  have hzero : ∃ h P, t.Powers.G1Powers[0]? = some h ∧
      parseG1PointNoSubgroupCheck L h = .ok P ∧
      s1.t.Powers.G1Powers[0]? = some (encodeG1 L (L.G1.ScalarMultiplication P 1)) := by
    obtain ⟨h, P, ha, hb, hc⟩ := hs1 0 (by omega)
    have hone : x ^ 0 % Modulus = 1 := by rw [pow_zero]; decide
    rw [hone] at hc
    exact ⟨h, P, ha, hb, hc⟩
  refine ⟨G1Points, G2Points, s1, hp1, hp2, hr, hi, hbody, hcall, hc1, hc2, hs1, hs2, hframe,
    hk1, hk2, hzero, ?_⟩
  constructor
  · intro hne
    by_contra hcon
    push_neg at hcon
    obtain ⟨hA, hB⟩ := hcon
    apply hne
    apply Transcript.eq_of_fields _ _ hc1 hc2
    · apply List.ext_getElem?
      intro j
      by_cases hj : j < t.Powers.G1Powers.length
      · exact hA j hj
      · rw [List.getElem?_eq_none (by omega), List.getElem?_eq_none (by omega)]
    · apply List.ext_getElem?
      intro j
      by_cases hj : j < t.Powers.G1Powers.length ∧ (j : Int) < t.NumG2Powers
      · exact hB j hj.1 hj.2
      · exact hframe j (by omega)
  · rintro (⟨j, _, hj⟩ | ⟨j, _, _, hj⟩) heq
    · exact hj (by rw [heq])
    · exact hj (by rw [heq])

/-- C16, witness: on `Z13.overG1` (`NumG1Powers = 3`, two G1 strings, `NumG2Powers = 2`,
three G2 strings) with secret 3 the call panics with slot 1 of `G1Powers` and slot 1 of
`G2Powers` overwritten by `3 * 2`, a transcript different from `Z13.overG1`; the theorem
applies to it. -/
theorem overcount_fails_late_witness :
    UpdatePowerOfTau Z13.lib Z13.overG1 3 = .panicked .indexOutOfRange
      { NumG1Powers := 3, NumG2Powers := 2,
        Powers := { G1Powers := [Z13.hexG1 1, Z13.hexG1 6],
                    G2Powers := [Z13.hexG2 1, Z13.hexG2 6, Z13.hexG2 3] } } ∧
    ({ NumG1Powers := 3, NumG2Powers := 2,
       Powers := { G1Powers := [Z13.hexG1 1, Z13.hexG1 6],
                   G2Powers := [Z13.hexG2 1, Z13.hexG2 6, Z13.hexG2 3] } } : Transcript) ≠
      Z13.overG1 ∧
    ∃ s1 : LoopState Z13.lib, s1.i = Z13.overG1.Powers.G1Powers.length ∧
      loopBody Z13.lib 3 s1 = .error (.indexOutOfRange, s1.t) ∧
      UpdatePowerOfTau Z13.lib Z13.overG1 3 = .panicked .indexOutOfRange s1.t :=
  ⟨by decide, by decide,
    (overcount_fails_late Z13.lib Z13.overG1 3 (by decide) (by decide) (by decide)
      (by decide) (by decide)).elim (fun _ h => h.elim (fun _ h1 => h1.elim (fun s1 h2 =>
        ⟨s1, h2.2.2.2.1, h2.2.2.2.2.1, h2.2.2.2.2.2.1⟩)))⟩

/-- C16, counterexample, in two parts. First, in `Z13.overboth` all strings decode and
`NumG1Powers = 3 > len(G1Powers) = 2 >= 1`, but `NumG2Powers = 1` with no G2 string: with
secret 3 the very first pass, at `i = 0`, panics on the G2 index, and slot 1 of `G1Powers`
still holds the string of the point 2, not the encoding of `3 ^ 1 * 2`. Second, in
`Z13.single` all strings decode, `NumG1Powers = 2 > len(G1Powers) = 1 >= 1` and no G2 index
is visited: with secret 3 the call panics after rewriting slot 0 with the scalar 1, and the
transcript left behind is the transcript before the call, not a mutated one. -/
theorem overcount_fails_late_counterexample :
    ((∀ h ∈ Z13.overboth.Powers.G1Powers, decodesG1 Z13.lib h = true) ∧
      (∀ h ∈ Z13.overboth.Powers.G2Powers, decodesG2 Z13.lib h = true) ∧
      (Z13.overboth.Powers.G1Powers.length : Int) < Z13.overboth.NumG1Powers ∧
      1 ≤ Z13.overboth.Powers.G1Powers.length ∧
      ParseG1PointsNoSubgroupCheck Z13.lib Z13.overboth.Powers.G1Powers =
        .ok Z13.overbothStart.G1Points ∧
      ParseG2PointsNoSubgroupCheck Z13.lib Z13.overboth.Powers.G2Powers =
        .ok Z13.overbothStart.G2Points ∧
      loopBody Z13.lib 3 Z13.overbothStart = .error (.indexOutOfRange, Z13.overboth) ∧
      UpdatePowerOfTau Z13.lib Z13.overboth 3 = .panicked .indexOutOfRange Z13.overboth ∧
      Z13.overboth.Powers.G1Powers[1]? = some (Z13.hexG1 2) ∧
      Z13.hexG1 2 ≠
        encodeG1 Z13.lib (Z13.lib.G1.ScalarMultiplication (2 : Fin 13) (3 ^ 1))) ∧
    ((∀ h ∈ Z13.single.Powers.G1Powers, decodesG1 Z13.lib h = true) ∧
      (∀ h ∈ Z13.single.Powers.G2Powers, decodesG2 Z13.lib h = true) ∧
      (Z13.single.Powers.G1Powers.length : Int) < Z13.single.NumG1Powers ∧
      1 ≤ Z13.single.Powers.G1Powers.length ∧
      UpdatePowerOfTau Z13.lib Z13.single 3 = .panicked .indexOutOfRange Z13.single) :=
  ⟨⟨by decide, by decide, by decide, by decide, rfl, rfl, rfl, by decide, rfl, by decide⟩,
    ⟨by decide, by decide, by decide, by decide, by decide⟩⟩


/-! ## Two calls in a row -/

/-- For a point whose multiples compose and depend only on the scalar modulo `r`, the
scalar of index `j` for `x` followed by that for `y` is the scalar of index `j` for
`x * y`. -/
theorem compose_scalar {α : Type} (smul : α → Int → α) (P : α) (x y : Int) (j : Nat)
    (hmul : ∀ a b : Int, smul (smul P a) b = smul P (a * b))
    (hmod : ∀ k : Int, smul P (k % Modulus) = smul P k) :
    smul (smul P (x ^ j % Modulus)) (y ^ j % Modulus) = smul P ((x * y) ^ j % Modulus) := by
  rw [hmul, ← hmod ((x ^ j % Modulus) * (y ^ j % Modulus)), ← Int.mul_emod, ← mul_pow]

/-- When the decoder reads back the bytes of the multiples of the transcript's points, the
transcript returned for a valid transcript is valid. -/
theorem Valid_after (L : Library) (t t1 : Transcript) (x : Int) (hv : Valid L t)
    (hrt1 : ∀ h ∈ t.Powers.G1Powers, ∀ P, parseG1PointNoSubgroupCheck L h = .ok P →
      ∀ k : Int, L.G1.Decode (L.G1.Bytes (L.G1.ScalarMultiplication P k)) =
        some (L.G1.ScalarMultiplication P k))
    (hrt2 : ∀ h ∈ t.Powers.G2Powers, ∀ Q, parseG2PointNoSubgroupCheck L h = .ok Q →
      ∀ k : Int, L.G2.Decode (L.G2.Bytes (L.G2.ScalarMultiplication Q k)) =
        some (L.G2.ScalarMultiplication Q k))
    (hr : UpdatePowerOfTau L t x = .returned t1) : Valid L t1 := by
  obtain ⟨G1Points, G2Points, t1a, hp1, hp2, hr1, hc1, hc2, hl1, hl2, hf1, hf2⟩ :=
    UpdatePowerOfTau_valid L t x hv
  rw [hr] at hr1
  cases hr1
  obtain ⟨hn1, hn2, hd1, hd2⟩ := hv
  refine ⟨by omega, by omega, ?_, ?_⟩
  · intro h hh
    obtain ⟨j, hj⟩ := List.mem_iff_getElem?.1 hh
    rw [hf1 j] at hj
    split_ifs at hj with hc
    · have hlt : j < t.Powers.G1Powers.length := by omega
      obtain ⟨P, hP, hparse⟩ :=
        (ParseG1Points_ok L _ _ hp1).2 j _ (List.getElem?_eq_getElem hlt)
      rw [hP] at hj
      simp only [Option.map_some', Option.some.injEq] at hj
      subst hj
      exact (decodesG1_iff L _).2
        ⟨_, parseG1_encodeG1 L _ (hrt1 _ (List.getElem_mem hlt) P hparse _)⟩
    · exact hd1 h (List.mem_iff_getElem?.2 ⟨j, hj⟩)
  · intro h hh
    obtain ⟨j, hj⟩ := List.mem_iff_getElem?.1 hh
    rw [hf2 j] at hj
    split_ifs at hj with hc
    · have hlt : j < t.Powers.G2Powers.length := by omega
      obtain ⟨Q, hQ, hparse⟩ :=
        (ParseG2Points_ok L _ _ hp2).2 j _ (List.getElem?_eq_getElem hlt)
      rw [hQ] at hj
      simp only [Option.map_some', Option.some.injEq] at hj
      subst hj
      exact (decodesG2_iff L _).2
        ⟨_, parseG2_encodeG2 L _ (hrt2 _ (List.getElem_mem hlt) Q hparse _)⟩
    · exact hd2 h (List.mem_iff_getElem?.2 ⟨j, hj⟩)

/-- C13: for every pair of secrets `x`, `y` and every valid transcript whose points lie in
the subgroup of order `r` (the multiples of each point compose, depend only on the scalar
modulo `r`, and are read back by the decoder from their bytes), the call with `x` followed
by the call with `y` returns exactly the transcript that the single call with `x * y`
returns, and each updated slot `i` holds the encoding of `(x * y) ^ i` times the original
point. -/
theorem contributions_compose (L : Library) (t : Transcript) (x y : Int) (hv : Valid L t)
    (hsub1 : ∀ h ∈ t.Powers.G1Powers, ∀ P, parseG1PointNoSubgroupCheck L h = .ok P →
      (∀ a b : Int, L.G1.ScalarMultiplication (L.G1.ScalarMultiplication P a) b =
        L.G1.ScalarMultiplication P (a * b)) ∧
      (∀ k : Int, L.G1.ScalarMultiplication P (k % Modulus) = L.G1.ScalarMultiplication P k) ∧
      (∀ k : Int, L.G1.Decode (L.G1.Bytes (L.G1.ScalarMultiplication P k)) =
        some (L.G1.ScalarMultiplication P k)))
    (hsub2 : ∀ h ∈ t.Powers.G2Powers, ∀ Q, parseG2PointNoSubgroupCheck L h = .ok Q →
      (∀ a b : Int, L.G2.ScalarMultiplication (L.G2.ScalarMultiplication Q a) b =
        L.G2.ScalarMultiplication Q (a * b)) ∧
      (∀ k : Int, L.G2.ScalarMultiplication Q (k % Modulus) = L.G2.ScalarMultiplication Q k) ∧
      (∀ k : Int, L.G2.Decode (L.G2.Bytes (L.G2.ScalarMultiplication Q k)) =
        some (L.G2.ScalarMultiplication Q k))) :
    ∃ t1 t2, UpdatePowerOfTau L t x = .returned t1 ∧
      UpdatePowerOfTau L t1 y = .returned t2 ∧
      UpdatePowerOfTau L t (x * y) = .returned t2 ∧
      (∀ i : Nat, (i : Int) < t.NumG1Powers →
        ∃ h P, t.Powers.G1Powers[i]? = some h ∧ parseG1PointNoSubgroupCheck L h = .ok P ∧
          t2.Powers.G1Powers[i]? =
            some (encodeG1 L (L.G1.ScalarMultiplication P ((x * y) ^ i)))) ∧
      (∀ i : Nat, (i : Int) < t.NumG1Powers → (i : Int) < t.NumG2Powers →
        ∃ h Q, t.Powers.G2Powers[i]? = some h ∧ parseG2PointNoSubgroupCheck L h = .ok Q ∧
          t2.Powers.G2Powers[i]? =
            some (encodeG2 L (L.G2.ScalarMultiplication Q ((x * y) ^ i)))) := by
  obtain ⟨G1Points, G2Points, t1, hp1, hp2, hr1, hc1, hc2, hl1, hl2, hf1, hf2⟩ :=
    UpdatePowerOfTau_valid L t x hv
  have hv1 : Valid L t1 := Valid_after L t t1 x hv
    (fun h hh P hP => (hsub1 h hh P hP).2.2) (fun h hh Q hQ => (hsub2 h hh Q hQ).2.2) hr1
  obtain ⟨G1Points1, G2Points1, t2, hq1, hq2, hr2, hd1, hd2, hm1, hm2, hg1, hg2⟩ :=
    UpdatePowerOfTau_valid L t1 y hv1
  obtain ⟨G1Points3, G2Points3, t3, hp1c, hp2c, hr3, he1, he2, hk1, hk2, hh1, hh2⟩ :=
    UpdatePowerOfTau_valid L t (x * y) hv
  rw [hp1] at hp1c
  rw [hp2] at hp2c
  cases hp1c
  cases hp2c
  obtain ⟨hn1, hn2, _, _⟩ := hv
  -- the slots of the two runs, index by index
  have slot1 : ∀ j : Nat, (j : Int) < t.NumG1Powers →
      ∃ h P, t.Powers.G1Powers[j]? = some h ∧ parseG1PointNoSubgroupCheck L h = .ok P ∧
        t2.Powers.G1Powers[j]? =
          some (encodeG1 L (L.G1.ScalarMultiplication P ((x * y) ^ j % Modulus))) ∧
        t3.Powers.G1Powers[j]? =
          some (encodeG1 L (L.G1.ScalarMultiplication P ((x * y) ^ j % Modulus))) ∧
        L.G1.ScalarMultiplication P ((x * y) ^ j % Modulus) =
          L.G1.ScalarMultiplication P ((x * y) ^ j) := by
    intro j hj
    have hlt : j < t.Powers.G1Powers.length := by omega
    obtain ⟨P, hP, hparse⟩ :=
      (ParseG1Points_ok L _ _ hp1).2 j _ (List.getElem?_eq_getElem hlt)
    obtain ⟨hmul, hmod, hrt⟩ := hsub1 _ (List.getElem_mem hlt) P hparse
    have hs1 := hf1 j
    simp only [hj, if_true, hP, Option.map_some'] at hs1
    obtain ⟨P1, hP1, hparse1⟩ := (ParseG1Points_ok L _ _ hq1).2 j _ hs1
    rw [parseG1_encodeG1 L _ (hrt _)] at hparse1
    cases hparse1
    have hs2 := hg1 j
    have hj1 : (j : Int) < t1.NumG1Powers := by omega
    simp only [hj1, if_true, hP1, Option.map_some',
      compose_scalar L.G1.ScalarMultiplication P x y j hmul hmod] at hs2
    have hs3 := hh1 j
    simp only [hj, if_true, hP, Option.map_some'] at hs3
    exact ⟨_, P, List.getElem?_eq_getElem hlt, hparse, hs2, hs3, hmod _⟩
  have slot2 : ∀ j : Nat, (j : Int) < t.NumG1Powers → (j : Int) < t.NumG2Powers →
      ∃ h Q, t.Powers.G2Powers[j]? = some h ∧ parseG2PointNoSubgroupCheck L h = .ok Q ∧
        t2.Powers.G2Powers[j]? =
          some (encodeG2 L (L.G2.ScalarMultiplication Q ((x * y) ^ j % Modulus))) ∧
        t3.Powers.G2Powers[j]? =
          some (encodeG2 L (L.G2.ScalarMultiplication Q ((x * y) ^ j % Modulus))) ∧
        L.G2.ScalarMultiplication Q ((x * y) ^ j % Modulus) =
          L.G2.ScalarMultiplication Q ((x * y) ^ j) := by
    intro j hj hj2
    have hlt : j < t.Powers.G2Powers.length := by omega
    obtain ⟨Q, hQ, hparse⟩ :=
      (ParseG2Points_ok L _ _ hp2).2 j _ (List.getElem?_eq_getElem hlt)
    obtain ⟨hmul, hmod, hrt⟩ := hsub2 _ (List.getElem_mem hlt) Q hparse
    have hs1 := hf2 j
    simp only [hj, hj2, and_self, if_true, hQ, Option.map_some'] at hs1
    obtain ⟨Q1, hQ1, hparse1⟩ := (ParseG2Points_ok L _ _ hq2).2 j _ hs1
    rw [parseG2_encodeG2 L _ (hrt _)] at hparse1
    cases hparse1
    have hs2 := hg2 j
    have hj1 : (j : Int) < t1.NumG1Powers ∧ (j : Int) < t1.NumG2Powers := by omega
    simp only [hj1, and_self, if_true, hQ1, Option.map_some',
      compose_scalar L.G2.ScalarMultiplication Q x y j hmul hmod] at hs2
    have hs3 := hh2 j
    simp only [hj, hj2, and_self, if_true, hQ, Option.map_some'] at hs3
    exact ⟨_, Q, List.getElem?_eq_getElem hlt, hparse, hs2, hs3, hmod _⟩
  have heq : t3 = t2 := by
    apply Transcript.eq_of_fields
    · omega
    · omega
    · apply List.ext_getElem?
      intro j
      by_cases hj : (j : Int) < t.NumG1Powers
      · obtain ⟨_, _, _, _, h2, h3, _⟩ := slot1 j hj
        rw [h2, h3]
      · have hj1 : ¬ (j : Int) < t1.NumG1Powers := by omega
        rw [hh1 j, hg1 j, hf1 j]
        simp only [hj, hj1, if_false]
    · apply List.ext_getElem?
      intro j
      by_cases hj : (j : Int) < t.NumG1Powers ∧ (j : Int) < t.NumG2Powers
      · obtain ⟨_, _, _, _, h2, h3, _⟩ := slot2 j hj.1 hj.2
        rw [h2, h3]
      · have hj1 : ¬ ((j : Int) < t1.NumG1Powers ∧ (j : Int) < t1.NumG2Powers) := by omega
        rw [hh2 j, hg2 j, hf2 j]
        simp only [hj, hj1, if_false]
  subst heq
  refine ⟨t1, t3, hr1, hr2, hr3, ?_, ?_⟩
  · intro i hi
    obtain ⟨h, P, ha, hb, _, h3, hm⟩ := slot1 i hi
    exact ⟨h, P, ha, hb, by rw [h3, hm]⟩
  · intro i hi hi2
    obtain ⟨h, Q, ha, hb, _, h3, hm⟩ := slot2 i hi hi2
    exact ⟨h, Q, ha, hb, by rw [h3, hm]⟩


/-! ## The group of order `r` is an instance of the library -/

theorem Zr.ofBytes_digits (n : Nat) : ∀ v : Nat,
    Zr.ofBytes n ((List.range n).map (fun i => v / 256 ^ i % 256)) = some (v % 256 ^ n) := by
  induction n with
  | zero => intro v; simp [Zr.ofBytes, Nat.mod_one]
  | succ n ih =>
    intro v
    have hmap : (List.range (n + 1)).map (fun i => v / 256 ^ i % 256) =
        v % 256 :: (List.range n).map (fun i => v / 256 / 256 ^ i % 256) := by
      rw [List.range_succ_eq_map, List.map_cons, List.map_map]
      congr 1
      · simp
      · apply List.map_congr_left
        intro i _
        simp only [Function.comp, Nat.succ_eq_add_one, Nat.div_div_eq_div_mul, pow_succ]
        rw [Nat.mul_comm 256]
    rw [hmap]
    simp only [Zr.ofBytes, ih (v / 256)]
    rw [pow_succ', Nat.mod_mul]

theorem Zr.Decode_of_Bytes (n : Nat) (hn : Zr.order ≤ 256 ^ n) (p : Fin Zr.order) :
    Zr.Decode n (Zr.Bytes n p) = some p := by
  have hp : p.val % 256 ^ n = p.val := Nat.mod_eq_of_lt (lt_of_lt_of_le p.isLt hn)
  simp only [Zr.Decode, Zr.Bytes, Zr.ofBytes_digits, hp, p.isLt, dite_true]

theorem Zr.smul_smul (p : Fin Zr.order) (a b : Int) :
    Zr.ScalarMultiplication (Zr.ScalarMultiplication p a) b =
      Zr.ScalarMultiplication p (a * b) := by
  apply Fin.ext
  simp only [Zr.ScalarMultiplication]
  have h0 : 0 ≤ (a * (p.val : Int)) % Modulus := Int.emod_nonneg _ (by decide)
  rw [Int.toNat_of_nonneg h0]
  congr 1
  rw [Int.mul_emod, Int.emod_emod, ← Int.mul_emod]
  congr 1
  ring

theorem Zr.smul_emod (p : Fin Zr.order) (k : Int) :
    Zr.ScalarMultiplication p (k % Modulus) = Zr.ScalarMultiplication p k := by
  apply Fin.ext
  simp only [Zr.ScalarMultiplication]
  congr 1
  rw [Int.mul_emod, Int.emod_emod, ← Int.mul_emod]


theorem Zr.order_le_48 : Zr.order ≤ 256 ^ 48 := by decide

theorem Zr.order_le_96 : Zr.order ≤ 256 ^ 96 := by decide

/-- The decoder of the group of order `r` reads back what `Bytes` writes. -/
theorem Zr.group_Decode_Bytes (n : Nat) (hn : Zr.order ≤ 256 ^ n) (P : (Zr.group n).Point) :
    (Zr.group n).Decode ((Zr.group n).Bytes P) = some P :=
  Zr.Decode_of_Bytes n hn P

/-- In the group of order `r` the multiples of every point compose, depend only on the
scalar modulo `r`, and are read back by the decoder from their bytes. -/
theorem Zr.group_subgroup (n : Nat) (hn : Zr.order ≤ 256 ^ n) (P : (Zr.group n).Point) :
    (∀ a b : Int, (Zr.group n).ScalarMultiplication ((Zr.group n).ScalarMultiplication P a) b =
      (Zr.group n).ScalarMultiplication P (a * b)) ∧
    (∀ k : Int, (Zr.group n).ScalarMultiplication P (k % Modulus) =
      (Zr.group n).ScalarMultiplication P k) ∧
    (∀ k : Int, (Zr.group n).Decode
        ((Zr.group n).Bytes ((Zr.group n).ScalarMultiplication P k)) =
      some ((Zr.group n).ScalarMultiplication P k)) :=
  ⟨Zr.smul_smul P, Zr.smul_emod P, fun _ => Zr.group_Decode_Bytes n hn _⟩

/-- C13, witness: `Zr.scenario` is valid over the group of order `r`, where the call with
`-15` returns the points `1`, `-15 * 2`, `225 * 3` and `1`, `-15 * 2`; the theorem applies
to the call with `-3` followed by the call with `r + 5`. -/
theorem contributions_compose_witness :
    Valid Zr.lib Zr.scenario ∧
    UpdatePowerOfTau Zr.lib Zr.scenario (-15) = .returned
      { NumG1Powers := 3, NumG2Powers := 2,
        Powers := { G1Powers := [encodeG1 Zr.lib (Zr.point 1),
                                 encodeG1 Zr.lib (Zr.point (Zr.order - 30)),
                                 encodeG1 Zr.lib (Zr.point 675)],
                    G2Powers := [encodeG2 Zr.lib (Zr.point 1),
                                 encodeG2 Zr.lib (Zr.point (Zr.order - 30))] } } ∧
    ∃ t1 t2, UpdatePowerOfTau Zr.lib Zr.scenario (-3) = .returned t1 ∧
      UpdatePowerOfTau Zr.lib t1 (Modulus + 5) = .returned t2 ∧
      UpdatePowerOfTau Zr.lib Zr.scenario (-3 * (Modulus + 5)) = .returned t2 ∧
      (∀ i : Nat, (i : Int) < Zr.scenario.NumG1Powers →
        ∃ h P, Zr.scenario.Powers.G1Powers[i]? = some h ∧
          parseG1PointNoSubgroupCheck Zr.lib h = .ok P ∧
          t2.Powers.G1Powers[i]? = some (encodeG1 Zr.lib
            (Zr.lib.G1.ScalarMultiplication P ((-3 * (Modulus + 5)) ^ i)))) ∧
      (∀ i : Nat, (i : Int) < Zr.scenario.NumG1Powers → (i : Int) < Zr.scenario.NumG2Powers →
        ∃ h Q, Zr.scenario.Powers.G2Powers[i]? = some h ∧
          parseG2PointNoSubgroupCheck Zr.lib h = .ok Q ∧
          t2.Powers.G2Powers[i]? = some (encodeG2 Zr.lib
            (Zr.lib.G2.ScalarMultiplication Q ((-3 * (Modulus + 5)) ^ i)))) :=
  ⟨by decide, by decide,
    contributions_compose Zr.lib Zr.scenario (-3) (Modulus + 5) (by decide)
      (fun _ _ P _ => Zr.group_subgroup 48 Zr.order_le_48 P)
      (fun _ _ Q _ => Zr.group_subgroup 96 Zr.order_le_96 Q)⟩

end Contribution
